import Mathlib

/-!
Verification development for the turbopack trace server's reader
(`crates/turbopack-trace-server/src/reader.rs`).

The reader tails a binary trace file, decodes `TraceRow` records and folds
them through `process` into a span store under a write lock.  This file
gives a shallow embedding of that code:

* `TraceRow` mirrors the record variants consumed by `process`.
* `Store` models the span store.  The store sources (`store.rs`,
  `span.rs`, `store_container.rs`) are not part of the provided slice, so
  the store operations are modelled from the specification (section 4.4):
  `add_span` allocates a dense id and appends, `add_self_time` appends an
  interval, aggregates are derived functions.
* `PState` mirrors `ReaderState` (reader.rs lines 220-227) together with
  the store it mutates; `process` is a field-by-field translation of the
  `process` function (reader.rs lines 103-217).
* `decodeLoop` models the inner decode loop of `try_read` (lines 67-80)
  with explicit fuel, and `tryReadGo` / `runIter` model the session loop
  and the outer `run` loop (lines 31-38, 51-99) over an abstract list of
  read events.

Rust `HashMap`s are embedded as association lists with `alookup` /
`ainsert` / `aerase`; no code path iterates over a whole map, so the
representation choice is observationally irrelevant.  Machine integers
(`u64`, `usize`) are embedded as `Nat`: the reader only stores and
compares them, it never wraps.
-/

/-- Internal span id: dense index into the store's span list. -/
abbrev SpanId := Nat

/-- The trace record variants of `TraceRow` (turbopack-trace-utils), with
string attribute values (the reader stringifies values on `Start`). -/
inductive TraceRow where
  | start (ts : Nat) (id : Nat) (parent : Option Nat) (name : String)
      (target : String) (values : List (String × String))
  | «end» (ts : Nat) (id : Nat)
  | enter (ts : Nat) (id : Nat) (thread_id : Nat)
  | exit (ts : Nat) (id : Nat) (thread_id : Nat)
  | event (ts : Nat) (parent : Option Nat) (values : List (String × String))
deriving DecidableEq

/-- Association-list lookup, modelling `HashMap::get`. -/
def alookup {κ ν : Type} [DecidableEq κ] (m : List (κ × ν)) (k : κ) : Option ν :=
  match m with
  | [] => none
  | p :: rest => if p.1 = k then some p.2 else alookup rest k

/-- Association-list key removal, modelling `HashMap::remove`. -/
def aerase {κ ν : Type} [DecidableEq κ] (m : List (κ × ν)) (k : κ) : List (κ × ν) :=
  match m with
  | [] => []
  | p :: rest => if p.1 = k then aerase rest k else p :: aerase rest k

/-- Association-list insert-or-replace, modelling `HashMap::insert`. -/
def ainsert {κ ν : Type} [DecidableEq κ] (m : List (κ × ν)) (k : κ) (v : ν) :
    List (κ × ν) :=
  (k, v) :: aerase m k

theorem alookup_aerase {κ ν : Type} [DecidableEq κ] (m : List (κ × ν)) (k k' : κ) :
    alookup (aerase m k) k' = if k' = k then none else alookup m k' := by
  induction m with
  | nil => simp [aerase, alookup]
  | cons p rest ih =>
    by_cases hk : k' = k
    · subst hk
      simp only [if_pos rfl] at ih ⊢
      by_cases hp : p.1 = k'
      · simp [aerase, hp, ih]
      · simp [aerase, alookup, hp, ih]
    · rw [if_neg hk] at ih ⊢
      have hk2 : ¬ k = k' := fun h => hk h.symm
      by_cases hp : p.1 = k
      · have hpk : ¬ p.1 = k' := fun h => hk (h.symm.trans hp)
        simp [aerase, alookup, hp, hpk, hk, hk2, ih]
      · by_cases hpk : p.1 = k'
        · simp [aerase, alookup, hp, hpk, hk, hk2]
        · simp [aerase, alookup, hp, hpk, hk, hk2, ih]

theorem alookup_ainsert {κ ν : Type} [DecidableEq κ] (m : List (κ × ν))
    (k k' : κ) (v : ν) :
    alookup (ainsert m k v) k' = if k' = k then some v else alookup m k' := by
  by_cases hk : k' = k
  · simp [ainsert, alookup, hk]
  · have : ¬ k = k' := fun h => hk h.symm
    simp [ainsert, alookup, this, hk, alookup_aerase]

theorem alookup_ainsert_self {κ ν : Type} [DecidableEq κ] (m : List (κ × ν))
    (k : κ) (v : ν) : alookup (ainsert m k v) k = some v := by
  simp [alookup_ainsert]

theorem alookup_ainsert_ne {κ ν : Type} [DecidableEq κ] (m : List (κ × ν))
    (k k' : κ) (v : ν) (h : k' ≠ k) :
    alookup (ainsert m k v) k' = alookup m k' := by
  simp [alookup_ainsert, h]

/-- A span held by the store.  Modelled from the spec (section 3 and 4.4):
the store sources are outside the provided slice.  `selfTimes` is the
append-only list of closed self-time intervals. -/
structure Span where
  parent : Option SpanId
  start : Nat
  target : String
  name : String
  values : List (String × String)
  selfTimes : List (Nat × Nat)
deriving DecidableEq

/-- Modelled from the spec: the span store (`store.rs` is not in the
provided slice).  `spans` is the dense arena (internal id = index).
`events` is the attachment slot that section 4.2 prescribes for `Event`
records; no operation of the observed source ever appends to it
(reader.rs lines 194-216 resolve the parent and discard the record), so it
stays empty under `process`. -/
structure Store where
  spans : List Span
  events : List (Option SpanId × Nat × List (String × String))
deriving DecidableEq

/-- Modelled from the spec (section 4.4): `add_span` allocates a dense id
(the current length), appends the span, and inserts the parent into the
outdated set.  Returns (store, new id, outdated). -/
def Store.add_span (st : Store) (parent : Option SpanId) (ts : Nat)
    (target name : String) (values : List (String × String))
    (outdated : List SpanId) : Store × SpanId × List SpanId :=
  (⟨st.spans ++ [⟨parent, ts, target, name, values, []⟩], st.events⟩,
   st.spans.length,
   match parent with
   | some p => p :: outdated
   | none => outdated)

/-- Append a self-time interval to the span at index `i`. -/
def setSelfTime (spans : List Span) (i : SpanId) (a b : Nat) : List Span :=
  match spans, i with
  | [], _ => []
  | sp :: rest, 0 => { sp with selfTimes := sp.selfTimes ++ [(a, b)] } :: rest
  | sp :: rest, n + 1 => sp :: setSelfTime rest n a b

/-- Modelled from the spec (section 4.4): `add_self_time` appends an
interval to the span and inserts the span id into the outdated set. -/
def Store.add_self_time (st : Store) (i : SpanId) (a b : Nat)
    (outdated : List SpanId) : Store × List SpanId :=
  (⟨setSelfTime st.spans i a b, st.events⟩, i :: outdated)

/-- The reader's `ReaderState` (reader.rs lines 220-227) bundled with the
store it mutates under the write guard. -/
structure PState where
  store : Store
  active_ids : List (Nat × SpanId)
  queued_rows : List (Nat × List TraceRow)
  outdated_spans : List SpanId
  thread_stacks : List (Nat × List SpanId)
  self_time_started : List ((SpanId × Nat) × Nat)
deriving DecidableEq

/-- The thread's stack, defaulting to empty (`entry(..).or_default()`). -/
def stackOfD (s : PState) (t : Nat) : List SpanId :=
  (alookup s.thread_stacks t).getD []

/-- Push a row onto the deferral queue `queued_rows[k]`
(`entry(k).or_default().push(row)`). -/
def queuePush (s : PState) (k : Nat) (row : TraceRow) : PState :=
  { s with queued_rows :=
      ainsert s.queued_rows k ((alookup s.queued_rows k).getD [] ++ [row]) }

/-- The applied half of the `Start` arm (reader.rs lines 137-148):
allocate the span and map the external id to it. -/
def applyStart (s : PState) (ts : Nat) (id : Nat) (iparent : Option SpanId)
    (name target : String) (values : List (String × String)) : PState :=
  let r := s.store.add_span iparent ts target name values s.outdated_spans
  { s with
    store := r.1,
    outdated_spans := r.2.2,
    active_ids := ainsert s.active_ids id r.2.1 }

/-- The `Start` arm (reader.rs lines 105-149): resolve the parent, defer
on an unresolved parent, otherwise allocate and register the span.  No
drain of `queued_rows` happens here: the source never reads
`queued_rows` back. -/
def startStep (s : PState) (ts : Nat) (id : Nat) (parent : Option Nat)
    (name target : String) (values : List (String × String)) : PState :=
  match parent with
  | some p =>
    match alookup s.active_ids p with
    | some ip => applyStart s ts id (some ip) name target values
    | none => queuePush s p (TraceRow.start ts id (some p) name target values)
  | none => applyStart s ts id none name target values

/-- The `End` arm (reader.rs lines 150-153): only remove the external id
from `active_ids`. -/
def endStep (s : PState) (id : Nat) : PState :=
  { s with active_ids := aerase s.active_ids id }

/-- Close the open self-time interval of span `p` on `thread_id` at `ts`
(the `add_self_time` call of reader.rs lines 165-167 together with the
preceding successful `self_time_started.remove`). -/
def closeSelf (s : PState) (p : SpanId) (v ts thread_id : Nat) : PState :=
  let r := s.store.add_self_time p v ts s.outdated_spans
  { s with
    store := r.1,
    outdated_spans := r.2,
    self_time_started := aerase s.self_time_started (p, thread_id) }

/-- Push `i` onto the thread's stack (read as `stack0` before any
closing) and start its self-time (reader.rs lines 169-170). -/
def enterFinish (s0 : PState) (stack0 : List SpanId) (i ts thread_id : Nat) : PState :=
  { s0 with
    thread_stacks := ainsert s0.thread_stacks thread_id (stack0 ++ [i]),
    self_time_started := ainsert s0.self_time_started (i, thread_id) ts }

/-- The `Enter` arm (reader.rs lines 154-171): resolve (defer if
unresolved); close the current top's open self-time interval, push the
span and start its self-time. -/
def enterStep (s : PState) (ts : Nat) (id : Nat) (thread_id : Nat) : PState :=
  match alookup s.active_ids id with
  | none => queuePush s id (TraceRow.enter ts id thread_id)
  | some i =>
    match (stackOfD s thread_id).getLast? with
    | some parent =>
      match alookup s.self_time_started (parent, thread_id) with
      | some v =>
        enterFinish (closeSelf s parent v ts thread_id) (stackOfD s thread_id) i ts thread_id
      | none => enterFinish s (stackOfD s thread_id) i ts thread_id
    | none => enterFinish s (stackOfD s thread_id) i ts thread_id

/-- The removal half of the `Exit` arm (reader.rs lines 183-188): drop
the occurrence at `stack_index`, and when it was not at the bottom,
restart self-time for the element left at `stack_index - 1` - the
post-removal list is indexed, matching `stack.remove` then
`stack[stack_index - 1]`. -/
def exitRemove (s : PState) (stack0 : List SpanId) (stack_index ts thread_id : Nat) : PState :=
  if stack_index > 0 then
    { s with
      thread_stacks := ainsert s.thread_stacks thread_id (stack0.eraseIdx stack_index),
      self_time_started := ainsert s.self_time_started
        ((stack0.eraseIdx stack_index).getD (stack_index - 1) 0, thread_id) ts }
  else
    { s with thread_stacks := ainsert s.thread_stacks thread_id (stack0.eraseIdx stack_index) }

/-- The closing half of the `Exit` arm (reader.rs lines 190-192): close
the exiting span's open self-time interval, if any. -/
def exitClose (s1 : PState) (i ts thread_id : Nat) : PState :=
  match alookup s1.self_time_started (i, thread_id) with
  | some v =>
    let r := s1.store.add_self_time i v ts s1.outdated_spans
    { s1 with
      store := r.1,
      outdated_spans := r.2,
      self_time_started := aerase s1.self_time_started (i, thread_id) }
  | none => s1

/-- The `Exit` arm (reader.rs lines 172-193): resolve (defer if
unresolved); find the topmost occurrence of the span on the thread stack
(`iter().rev().position`), remove it and restart self-time below it, then
close the exiting span's open self-time interval.  The stack entry is
materialized (`entry(..).or_default()`) even when the span is not on the
stack. -/
def exitStep (s : PState) (ts : Nat) (id : Nat) (thread_id : Nat) : PState :=
  match alookup s.active_ids id with
  | none => queuePush s id (TraceRow.exit ts id thread_id)
  | some i =>
    match (stackOfD s thread_id).reverse.findIdx? (fun x => decide (x = i)) with
    | some pos =>
      exitClose
        (exitRemove s (stackOfD s thread_id)
          ((stackOfD s thread_id).length - pos - 1) ts thread_id)
        i ts thread_id
    | none =>
      exitClose
        { s with thread_stacks := ainsert s.thread_stacks thread_id (stackOfD s thread_id) }
        i ts thread_id

/-- The `Event` arm (reader.rs lines 194-216): resolve the parent (defer
if unresolved) and then discard the record (`let _parent = ...`). -/
def eventStep (s : PState) (ts : Nat) (parent : Option Nat)
    (values : List (String × String)) : PState :=
  match parent with
  | some p =>
    match alookup s.active_ids p with
    | some _ => s
    | none => queuePush s p (TraceRow.event ts (some p) values)
  | none => s

/-- The reconstructor `process` (reader.rs lines 103-217). -/
def process (s : PState) : TraceRow → PState
  | .start ts id parent name target values => startStep s ts id parent name target values
  | .«end» _ id => endStep s id
  | .enter ts id th => enterStep s ts id th
  | .exit ts id th => exitStep s ts id th
  | .event ts parent values => eventStep s ts parent values

/-- The empty store. -/
def initStore : Store := ⟨[], []⟩

/-- A fresh `ReaderState::default()` over an empty store. -/
def initPState : PState := ⟨initStore, [], [], [], [], []⟩

/-- Fold a list of rows through `process` from a given state. -/
def runFrom (s : PState) (rows : List TraceRow) : PState :=
  rows.foldl process s

/-- Fold a list of rows through `process` from a fresh session. -/
def runRows (rows : List TraceRow) : PState :=
  runFrom initPState rows

/-- A self-time interval together with the thread whose Enter/Exit closed
it.  Ghost data: `add_self_time` itself stores no thread, but every call
site closes an interval on behalf of exactly one thread (the row's
`thread_id`), which this log makes explicit. -/
structure STEntry where
  span : SpanId
  thread : Nat
  start : Nat
  stop : Nat
deriving DecidableEq

/-- A ghost per-thread span event (a resolved Enter or Exit): which
internal span, on which thread, at which timestamp. -/
structure ThreadEv where
  span : SpanId
  thread : Nat
  ts : Nat
deriving DecidableEq

/-- The self-time intervals that `process s row` closes, tagged with the
row's thread.  Mirrors exactly the `add_self_time` call sites of the
`Enter` and `Exit` arms. -/
def newSelfTimes (s : PState) : TraceRow → List STEntry
  | .enter ts id th =>
    match alookup s.active_ids id with
    | none => []
    | some _ =>
      match (stackOfD s th).getLast? with
      | some parent =>
        match alookup s.self_time_started (parent, th) with
        | some v => [⟨parent, th, v, ts⟩]
        | none => []
      | none => []
  | .exit ts id th =>
    match alookup s.active_ids id with
    | none => []
    | some i =>
      match (stackOfD s th).reverse.findIdx? (fun x => decide (x = i)) with
      | some pos =>
        match alookup (exitRemove s (stackOfD s th)
            ((stackOfD s th).length - pos - 1) ts th).self_time_started (i, th) with
        | some v => [⟨i, th, v, ts⟩]
        | none => []
      | none =>
        match alookup s.self_time_started (i, th) with
        | some v => [⟨i, th, v, ts⟩]
        | none => []
  | _ => []

/-- The ghost enter event produced by `process s row` (the `Enter` arm
when the external id resolves). -/
def newEnters (s : PState) : TraceRow → List ThreadEv
  | .enter ts id th =>
    match alookup s.active_ids id with
    | some i => [⟨i, th, ts⟩]
    | none => []
  | _ => []

/-- The ghost exit event produced by `process s row` (the `Exit` arm when
the external id resolves). -/
def newExits (s : PState) : TraceRow → List ThreadEv
  | .exit ts id th =>
    match alookup s.active_ids id with
    | some i => [⟨i, th, ts⟩]
    | none => []
  | _ => []

/-- A processing state paired with its ghost logs. -/
structure Traced where
  st : PState
  log : List STEntry
  enters : List ThreadEv
  exits : List ThreadEv
deriving DecidableEq

/-- One `process` step with ghost logging. -/
def tstep (t : Traced) (r : TraceRow) : Traced :=
  ⟨process t.st r,
   t.log ++ newSelfTimes t.st r,
   t.enters ++ newEnters t.st r,
   t.exits ++ newExits t.st r⟩

/-- Fold rows through `tstep` from a given traced state. -/
def trunFrom (t : Traced) (rows : List TraceRow) : Traced :=
  rows.foldl tstep t

/-- Fold rows through `tstep` from a fresh session. -/
def trun (rows : List TraceRow) : Traced :=
  trunFrom ⟨initPState, [], [], []⟩ rows

/-- The closed intervals of span `S` attributed to thread `T`. -/
def entriesFor (S T : Nat) (log : List STEntry) : List (Nat × Nat) :=
  log.filterMap (fun e =>
    if e.span = S ∧ e.thread = T then some (e.start, e.stop) else none)

/-- The timestamps of the ghost events of span `S` on thread `T`. -/
def evsFor (S T : Nat) (es : List ThreadEv) : List Nat :=
  es.filterMap (fun e =>
    if e.span = S ∧ e.thread = T then some e.ts else none)

/-- The timestamp of the first resolved Enter of span `S` on thread `T`
(0 when there is none). -/
def firstEnterTs (S T : Nat) (es : List ThreadEv) : Nat :=
  ((evsFor S T es).head?).getD 0

/-- The timestamp of the last resolved Exit of span `S` on thread `T`
(0 when there is none). -/
def lastExitTs (S T : Nat) (es : List ThreadEv) : Nat :=
  ((evsFor S T es).getLast?).getD 0

/-- Total length of a list of intervals. -/
def sumLen (l : List (Nat × Nat)) : Nat :=
  (l.map (fun ab => ab.2 - ab.1)).sum

/-- The timestamp a row carries on thread `T` (Enter/Exit rows only). -/
def tsOn (T : Nat) : TraceRow → Option Nat
  | .enter ts _ th => if th = T then some ts else none
  | .exit ts _ th => if th = T then some ts else none
  | _ => none

/-- Are the Enter/Exit timestamps of thread `T` non-decreasing, starting
from `lb`? -/
def monoFrom (T lb : Nat) : List TraceRow → Bool
  | [] => true
  | r :: rest =>
    match tsOn T r with
    | some t => decide (lb ≤ t) && monoFrom T t rest
    | none => monoFrom T lb rest

/-- The last Enter/Exit timestamp of thread `T` in the row list,
defaulting to `M`. -/
def lastTsFrom (T M : Nat) : List TraceRow → Nat
  | [] => M
  | r :: rest => lastTsFrom T ((tsOn T r).getD M) rest

/-- Intervals chained above a lower bound: each interval starts no
earlier than the previous one ends. -/
def ChainLB (lb : Nat) : List (Nat × Nat) → Prop
  | [] => True
  | (a, b) :: rest => lb ≤ a ∧ a ≤ b ∧ ChainLB b rest

/-- The end of the last interval, defaulting to the lower bound. -/
def lastHi (lb : Nat) : List (Nat × Nat) → Nat
  | [] => lb
  | (_, b) :: rest => lastHi b rest

/-- A framed-decoder outcome, as the spec's section 4.1 describes the
`postcard::take_from_bytes` contract: a decoded row plus the number of
consumed bytes, a need-more-bytes signal (`DeserializeUnexpectedEnd`), or
any other (malformed-frame) error. -/
inductive DecodeRes where
  | ok (row : TraceRow) (consumed : Nat)
  | needMore
  | malformed
deriving DecidableEq

/-- The inner decode loop of `try_read` (reader.rs lines 66-80), with
explicit fuel standing for the number of loop iterations: `ok` advances
`index` and collects the row, `needMore` breaks out of the loop returning
the rows collected so far, and `malformed` only logs - it neither breaks
nor advances `index`.  `none` means the fuel ran out with the loop still
running. -/
def decodeLoop (dec : List Nat → DecodeRes) (buffer : List Nat) :
    Nat → Nat → List TraceRow → Option (Nat × List TraceRow)
  | 0, _, _ => none
  | fuel + 1, index, rows =>
    match dec (buffer.drop index) with
    | .ok row consumed => decodeLoop dec buffer fuel (index + consumed) (rows ++ [row])
    | .needMore => some (index, rows)
    | .malformed => decodeLoop dec buffer fuel index rows

/-- One observed outcome of `file.read` in the `try_read` loop: a chunk
that decodes to the given rows, a zero-byte read, or an I/O error. -/
inductive ReadEvent where
  | data (rows : List TraceRow)
  | empty
  | ioError
deriving DecidableEq

/-- The per-chunk batch step of `try_read` (reader.rs lines 81-89): when
any rows were decoded, the write handle is acquired once, every row is
processed under that single hold, and the outdated set is drained and
cleared. -/
def batchProcess (s : PState) (rows : List TraceRow) : PState :=
  if rows = [] then s
  else { runFrom s rows with outdated_spans := [] }

/-- How many rows each single write-handle hold processes, across a list
of read events: one hold per non-empty decoded batch, covering the whole
batch (reader.rs lines 81-89 have no sub-batching). -/
def lockBatches (evs : List ReadEvent) : List Nat :=
  evs.filterMap (fun e =>
    match e with
    | .data rows => if rows = [] then none else some rows.length
    | _ => none)

/-- The `MAX_ROWS_PER_LOCK` constant (reader.rs line 18).  It is declared
and never read again anywhere in the source. -/
def MAX_ROWS_PER_LOCK : Nat := 100 * 1024

/-- The store container: the session state behind the write handle, the
generation counter, and a ghost count of `reset()` calls.  Modelled from
the spec (section 4.5): `store_container.rs` is not in the provided
slice. -/
structure StoreContainer where
  session : PState
  generation : Nat
  resets : Nat
deriving DecidableEq

/-- Modelled from the spec (section 4.4): `reset()` discards all spans
and increments the generation counter.  The ghost `resets` counter counts
the calls. -/
def resetC (c : StoreContainer) : StoreContainer :=
  ⟨initPState, c.generation + 1, c.resets + 1⟩

/-- The body of `try_read`'s read loop (reader.rs lines 51-99) over a
list of observed read outcomes: decoded batches are processed under one
write hold each, zero-byte reads only sleep, and the first I/O error
resets the store and returns `true` to the caller. -/
def tryReadGo (c : StoreContainer) : List ReadEvent → StoreContainer × Bool
  | [] => (c, false)
  | .data rows :: rest => tryReadGo { c with session := batchProcess c.session rows } rest
  | .empty :: rest => tryReadGo c rest
  | .ioError :: _ => (resetC c, true)

/-- A `try_read` session (reader.rs lines 40-100): the reader state is
created fresh (`ReaderState::default()`), the store contents persist. -/
def tryRead (c : StoreContainer) (evs : List ReadEvent) : StoreContainer × Bool :=
  tryReadGo { c with session := { initPState with store := c.session.store } } evs

/-- One iteration of the outer `run` loop (reader.rs lines 31-38): if
`try_read` returned `true`, reset the store once more, then (after a
sleep) the loop reopens the file. -/
def runIter (c : StoreContainer) (evs : List ReadEvent) : StoreContainer :=
  if (tryRead c evs).2 then resetC (tryRead c evs).1 else (tryRead c evs).1

/-- A fresh store container. -/
def initContainer : StoreContainer := ⟨initPState, 0, 0⟩

/-- Did the event list hit an I/O error? -/
def hasIoError (evs : List ReadEvent) : Prop := ReadEvent.ioError ∈ evs

/-- Exclusive time of the span at index `i`: the sum of its closed
self-time intervals (spec section 4.4). -/
def exclusiveTime (spans : List Span) (i : Nat) : Nat :=
  (((spans.get? i).map Span.selfTimes).getD []).foldl (fun acc ab => acc + (ab.2 - ab.1)) 0

/-- The children of span `i`: the indices whose parent is `i`, in
insertion order. -/
def childrenOf (spans : List Span) (i : Nat) : List Nat :=
  (spans.enum.filter (fun p => p.2.parent = some i)).map (fun p => p.1)

/-- Inclusive time with explicit recursion depth: exclusive time plus the
sum of the children's inclusive times (spec section 4.4). -/
def inclusiveAux (spans : List Span) : Nat → Nat → Nat
  | 0, _ => 0
  | fuel + 1, i =>
    exclusiveTime spans i + ((childrenOf spans i).map (inclusiveAux spans fuel)).sum

/-- Inclusive time of span `i`; a parent always has a smaller index than
its children, so `spans.length` bounds the recursion depth. -/
def inclusiveTime (spans : List Span) (i : Nat) : Nat :=
  inclusiveAux spans spans.length i

/-- The (parent, open-interval-start) pair the Enter arm would close on
this thread, if any: the top of the stack when it has an open self-time
entry (reader.rs lines 164-168). -/
def enterClosed (s : PState) (th : Nat) : Option (SpanId × Nat) :=
  match (stackOfD s th).getLast? with
  | some parent =>
    match alookup s.self_time_started (parent, th) with
    | some v => some (parent, v)
    | none => none
  | none => none

/-- The per-span, per-thread invariant of the self-time bookkeeping.
`log` and `enters` are the ghost logs, `M` the largest Enter/Exit
timestamp processed so far on thread `T`.  For span `S` on thread `T`:
the closed intervals are chained above the first Enter timestamp and end
at or below `M`; intervals and open self-time entries exist only after a
first resolved Enter; an open entry starts after the last closed interval
and not after `M`; and stack membership also implies a past Enter. -/
structure INVat (T S : Nat) (s : PState) (log : List STEntry)
    (enters : List ThreadEv) (M : Nat) : Prop where
  entries_enters : entriesFor S T log ≠ [] → evsFor S T enters ≠ []
  chain : ChainLB (firstEnterTs S T enters) (entriesFor S T log)
  hi_le : lastHi (firstEnterTs S T enters) (entriesFor S T log) ≤ M
  sts_bound : ∀ v, alookup s.self_time_started (S, T) = some v →
    evsFor S T enters ≠ [] ∧
    lastHi (firstEnterTs S T enters) (entriesFor S T log) ≤ v ∧ v ≤ M
  stack_enters : S ∈ stackOfD s T → evsFor S T enters ≠ []

/-- The invariant for every span. -/
def INV (T : Nat) (s : PState) (log : List STEntry)
    (enters : List ThreadEv) (M : Nat) : Prop :=
  ∀ S, INVat T S s log enters M

/-- Counterexample stream: span s (external 100) enters, exits, and
re-enters on thread 1; a later Enter of span c (external 101) closes a
second interval for s past its last Exit. -/
def c7rows : List TraceRow :=
  [TraceRow.start 0 100 none "s" "" [], TraceRow.start 1 101 none "c" "" [],
   TraceRow.enter 10 100 1, TraceRow.exit 20 100 1,
   TraceRow.enter 30 100 1, TraceRow.enter 40 101 1]

/-- Witness stream for the amended bound: one simple enter/exit pair. -/
def c7wrows : List TraceRow :=
  [TraceRow.start 0 5 none "w" "" [], TraceRow.enter 3 5 1, TraceRow.exit 9 5 1]

/-- Concrete out-of-order scenario from the spec (section 8, scenario 2):
an Enter for external id 7 arrives before its Start. -/
def c1rows : List TraceRow :=
  [TraceRow.enter 5 7 1, TraceRow.start 0 7 none "x" "t" []]

/-- Prefix building the thread-1 stack [0, 1, 2] (spans A, B, C with
external ids 10, 11, 12), as in the spec's misnested-exit scenario. -/
def c2preRows : List TraceRow :=
  [TraceRow.start 0 10 none "A" "" [], TraceRow.start 1 11 none "B" "" [],
   TraceRow.start 2 12 none "C" "" [], TraceRow.enter 3 10 1,
   TraceRow.enter 4 11 1, TraceRow.enter 5 12 1]

/-- The state with stack [A, B, C] = [0, 1, 2] on thread 1. -/
def c2state : PState := runRows c2preRows

/-- The spec's simple-nest scenario (section 8, scenario 1). -/
def c6rows : List TraceRow :=
  [TraceRow.start 0 1 none "a" "" [], TraceRow.enter 10 1 1,
   TraceRow.start 20 2 (some 1) "b" "" [], TraceRow.enter 30 2 1,
   TraceRow.exit 40 2 1, TraceRow.exit 50 1 1]

/-- A state after one parentless Start (external id 1, internal id 0). -/
def c9state : PState := runRows [TraceRow.start 0 1 none "a" "" []]

/-- The Event row whose parent resolves in `c9state`. -/
def c9row : TraceRow := TraceRow.event 5 (some 1) [("k", "v")]

/-- The concrete id-reuse scenario (spec section 8, scenario 3). -/
def c8rows : List TraceRow :=
  [TraceRow.start 0 1 none "a" "" [], TraceRow.«end» 5 1,
   TraceRow.start 9 1 none "b" "" []]

/-- The stored self-time intervals of any existing span. -/
def storeIntervals (s : PState) (j : Nat) : List (Nat × Nat) :=
  (((s.store.spans[j]?).map Span.selfTimes).getD [])

/-- C1: the source defers the early Enter into `queued_rows[7]`, but no
code path ever reads `queued_rows` back: after the Start for 7 is applied
the deferred Enter is still queued, no thread stack exists and no
self-time was started - the deferred record is never re-processed. -/
theorem c1_queued_never_drained :
    alookup (runRows c1rows).queued_rows 7 = some [TraceRow.enter 5 7 1] ∧
    (runRows c1rows).thread_stacks = [] ∧
    (runRows c1rows).self_time_started = [] ∧
    alookup (runRows c1rows).active_ids 7 = some 0 := by
  decide

/-- C2, counterexample: exiting B (external 11, internal 1, found at
position k = 1 > 0 of [0, 1, 2]) leaves stack [0, 2], whose new top is
span 2 (C).  The claim says `self_time_started[(2, 1)]` becomes the exit
timestamp 40; the code instead re-arms span 0 (A), the element below the
removed one, and C keeps its Enter-time 5. -/
theorem c2_counterexample :
    stackOfD (process c2state (TraceRow.exit 40 11 1)) 1 = [0, 2] ∧
    alookup (process c2state (TraceRow.exit 40 11 1)).self_time_started (0, 1) = some 40 ∧
    alookup (process c2state (TraceRow.exit 40 11 1)).self_time_started (2, 1) = some 5 ∧
    ¬ alookup (process c2state (TraceRow.exit 40 11 1)).self_time_started (2, 1) = some 40 := by
  decide

theorem exitRemove_store (s : PState) (stack0 : List SpanId) (k ts th : Nat) :
    (exitRemove s stack0 k ts th).store = s.store := by
  rw [exitRemove]; split <;> rfl

theorem exitRemove_stacks (s : PState) (stack0 : List SpanId) (k ts th : Nat) :
    (exitRemove s stack0 k ts th).thread_stacks =
      ainsert s.thread_stacks th (stack0.eraseIdx k) := by
  rw [exitRemove]; split <;> rfl

theorem exitRemove_sts_pos (s : PState) (stack0 : List SpanId) (k ts th : Nat)
    (hk : 0 < k) :
    (exitRemove s stack0 k ts th).self_time_started =
      ainsert s.self_time_started ((stack0.eraseIdx k).getD (k - 1) 0, th) ts := by
  rw [exitRemove, if_pos hk]

/-- When the external id resolves and the span is found on the stack,
the Exit arm is removal followed by closing. -/
theorem exitStep_found (s : PState) (ts x th i pos : Nat)
    (hres : alookup s.active_ids x = some i)
    (hpos : (stackOfD s th).reverse.findIdx? (fun y => decide (y = i)) = some pos) :
    exitStep s ts x th =
      exitClose (exitRemove s (stackOfD s th)
        ((stackOfD s th).length - pos - 1) ts th) i ts th := by
  rw [exitStep, hres]
  show (match (stackOfD s th).reverse.findIdx? (fun y => decide (y = i)) with
    | some pos =>
      exitClose
        (exitRemove s (stackOfD s th) ((stackOfD s th).length - pos - 1) ts th)
        i ts th
    | none =>
      exitClose
        { s with thread_stacks := ainsert s.thread_stacks th (stackOfD s th) }
        i ts th) = _
  rw [hpos]

/-- C2, amended: when an Exit resolves to internal id `i` found at
position `stack_index > 0` (from the bottom) of the thread's stack, the
reader removes that occurrence and sets
`self_time_started[(q, thread)] = ts` for `q` the element at index
`stack_index - 1` - the element immediately below the removal point,
which is the new top only when the removed occurrence was topmost.
(The side condition `q ≠ i` excludes the duplicate-entry case, where the
subsequent close step removes the freshly written entry again.) -/
theorem c2_amended (s : PState) (ts x th i pos stack_index : Nat) (q : SpanId)
    (hres : alookup s.active_ids x = some i)
    (hpos : (stackOfD s th).reverse.findIdx? (fun y => decide (y = i)) = some pos)
    (hidx : stack_index = (stackOfD s th).length - pos - 1)
    (hk : 0 < stack_index)
    (hq : q = ((stackOfD s th).eraseIdx stack_index).getD (stack_index - 1) 0)
    (hqi : q ≠ i) :
    alookup (process s (TraceRow.exit ts x th)).self_time_started (q, th) = some ts ∧
    stackOfD (process s (TraceRow.exit ts x th)) th = (stackOfD s th).eraseIdx stack_index := by
  have hiq : (i, th) ≠ (q, th) := by
    intro hcontra
    exact hqi (congrArg Prod.fst hcontra).symm
  have hred : process s (TraceRow.exit ts x th) =
      exitClose (exitRemove s (stackOfD s th) stack_index ts th) i ts th := by
    show exitStep s ts x th = _
    rw [exitStep_found s ts x th i pos hres hpos, hidx]
  have hsts1 : (exitRemove s (stackOfD s th) stack_index ts th).self_time_started =
      ainsert s.self_time_started (q, th) ts := by
    rw [exitRemove_sts_pos _ _ _ _ _ hk, ← hq]
  have hstk1 : (exitRemove s (stackOfD s th) stack_index ts th).thread_stacks =
      ainsert s.thread_stacks th ((stackOfD s th).eraseIdx stack_index) :=
    exitRemove_stacks _ _ _ _ _
  rw [hred, exitClose, hsts1, alookup_ainsert_ne _ _ _ _ hiq]
  cases hv : alookup s.self_time_started (i, th) with
  | none =>
    constructor
    · rw [hsts1]
      exact alookup_ainsert_self _ _ _
    · rw [stackOfD, hstk1, alookup_ainsert_self]
      rfl
  | some v =>
    constructor
    · show alookup (aerase (ainsert s.self_time_started (q, th) ts) (i, th)) (q, th) = some ts
      rw [alookup_aerase, if_neg (fun hcontra => hiq hcontra.symm)]
      exact alookup_ainsert_self _ _ _
    · show (alookup (exitRemove s (stackOfD s th) stack_index ts th).thread_stacks th).getD [] =
        (stackOfD s th).eraseIdx stack_index
      rw [hstk1, alookup_ainsert_self]
      rfl

/-- C2, amended, witness: exiting B from stack [0, 1, 2] on thread 1
re-arms span 0 at timestamp 40 and leaves stack [0, 2]. -/
theorem c2_amended_witness :
    alookup (process c2state (TraceRow.exit 40 11 1)).self_time_started (0, 1) = some 40 ∧
    stackOfD (process c2state (TraceRow.exit 40 11 1)) 1 = (stackOfD c2state 1).eraseIdx 1 := by
  exact c2_amended c2state 40 11 1 1 1 1 0 (by decide) (by decide) (by decide)
    (by decide) (by decide) (by decide)

/-- Helper: a `try_read` session that hits an I/O error resets the store
exactly once inside the error branch and reports `true` to `run`. -/
theorem tryReadGo_err (evs : List ReadEvent) :
    ∀ c : StoreContainer, hasIoError evs →
      (tryReadGo c evs).1.generation = c.generation + 1 ∧
      (tryReadGo c evs).1.resets = c.resets + 1 ∧
      (tryReadGo c evs).2 = true := by
  induction evs with
  | nil => intro c h; cases h
  | cons e rest ih =>
    intro c h
    cases e with
    | data rows =>
      have hrest : hasIoError rest := by
        cases h with
        | tail _ h2 => exact h2
      exact ih _ hrest
    | empty =>
      have hrest : hasIoError rest := by
        cases h with
        | tail _ h2 => exact h2
      exact ih _ hrest
    | ioError => exact ⟨rfl, rfl, rfl⟩

/-- C3, counterexample: a session consisting of a single mid-session read
error makes `reset()` run twice, not once - once in `try_read`'s error
branch and once more in `run` when `try_read` returns `true` - so the
generation counter increments by two. -/
theorem c3_counterexample :
    (runIter initContainer [ReadEvent.ioError]).resets = 2 ∧
    ¬ ((runIter initContainer [ReadEvent.ioError]).generation =
        initContainer.generation + 1) := by
  decide

/-- C3, amended: whenever a mid-session read returns an error, the reader
calls `reset()` twice - once inside `try_read`'s error branch, and once
more in the outer `run` loop because `try_read` returns `true` - so the
generation counter increments by exactly two; the outer loop then reopens
the file for a fresh session. -/
theorem c3_amended (c : StoreContainer) (evs : List ReadEvent)
    (h : hasIoError evs) :
    (runIter c evs).generation = c.generation + 2 ∧
    (runIter c evs).resets = c.resets + 2 := by
  rcases tryReadGo_err evs { c with session := { initPState with store := c.session.store } } h
    with ⟨hg, hr, hb⟩
  have heq : tryRead c evs =
      tryReadGo { c with session := { initPState with store := c.session.store } } evs := rfl
  unfold runIter
  rw [heq, hb]
  simp only [if_pos, resetC]
  rw [hg, hr]
  exact ⟨rfl, rfl⟩

/-- C3, amended, witness: at a fresh container and the one-error session,
two resets happen and the generation goes from 0 to 2. -/
theorem c3_amended_witness :
    (runIter initContainer [ReadEvent.ioError]).generation =
      initContainer.generation + 2 ∧
    (runIter initContainer [ReadEvent.ioError]).resets =
      initContainer.resets + 2 := by
  exact c3_amended initContainer [ReadEvent.ioError] (List.Mem.head _)

/-- C4: when the decoder rejects the bytes at the current index with a
malformed-frame error, the inner decode loop of `try_read` never
terminates: the error arm neither breaks nor advances `index`, so every
iteration re-decodes the same bytes (and prints the error again).  No
amount of fuel completes the loop. -/
theorem c4_malformed_loops_forever (dec : List Nat → DecodeRes)
    (buffer : List Nat) (index : Nat)
    (h : dec (buffer.drop index) = DecodeRes.malformed) :
    ∀ fuel rows, decodeLoop dec buffer fuel index rows = none := by
  intro fuel
  induction fuel with
  | zero => intro rows; rfl
  | succ n ih =>
    intro rows
    show decodeLoop dec buffer (n + 1) index rows = none
    rw [decodeLoop, h]
    exact ih rows

/-- C4, witness: a buffer whose first byte no frame can start with keeps
the loop spinning for any concrete fuel. -/
theorem c4_malformed_loops_forever_witness :
    decodeLoop (fun _ => DecodeRes.malformed) [255] 64 0 [] = none := by
  exact c4_malformed_loops_forever (fun _ => DecodeRes.malformed) [255] 0 rfl 64 []

/-- C5: a single decoded batch of `MAX_ROWS_PER_LOCK + 1` rows is
processed under one write-handle hold covering all of it: the constant is
declared (reader.rs line 18) but the batch loop (lines 81-89) never
consults it, so no sub-batching happens. -/
theorem c5_single_hold_unbounded :
    lockBatches
        [ReadEvent.data (List.replicate (MAX_ROWS_PER_LOCK + 1) (TraceRow.«end» 0 0))] =
      [MAX_ROWS_PER_LOCK + 1] ∧
    MAX_ROWS_PER_LOCK < MAX_ROWS_PER_LOCK + 1 := by
  constructor
  · simp only [lockBatches, List.filterMap_cons, List.filterMap_nil, List.replicate_succ]
    rw [if_neg (List.cons_ne_nil _ _)]
    rw [List.length_cons, List.length_replicate]
  · exact Nat.lt_succ_self _


/-- C6: processing the simple-nest scenario yields span "a" with
self-time intervals [10,30] and [40,50] (30 ns exclusive), span "b" with
[30,40] (10 ns exclusive), and 40 ns inclusive time for "a". -/
theorem c6_simple_nest :
    ((runRows c6rows).store.spans.map Span.name = ["a", "b"]) ∧
    (((runRows c6rows).store.spans[0]?).map Span.selfTimes = some [(10, 30), (40, 50)]) ∧
    (((runRows c6rows).store.spans[1]?).map Span.selfTimes = some [(30, 40)]) ∧
    exclusiveTime (runRows c6rows).store.spans 0 = 30 ∧
    exclusiveTime (runRows c6rows).store.spans 1 = 10 ∧
    inclusiveTime (runRows c6rows).store.spans 0 = 40 := by
  exact ⟨by decide, by decide, by decide, by decide, by decide, by decide⟩


/-- C9, counterexample: an Event whose parent external id resolves is not
attached anywhere - the store's event list does not grow (the source
resolves the parent into `_parent` and drops it). -/
theorem c9_counterexample :
    ¬ ((process c9state c9row).store.events.length =
        c9state.store.events.length + 1) := by
  decide

/-- C9, amended: an Event whose parent is absent or resolves in
`active_ids` is discarded with no effect at all: the store (in particular
its event list), the thread stacks, the self-time state, the active map
and the queues are all left exactly as they were. -/
theorem c9_amended (s : PState) (ts : Nat) (parent : Option Nat)
    (values : List (String × String))
    (h : parent = none ∨ ∃ p, parent = some p ∧ (alookup s.active_ids p).isSome) :
    process s (TraceRow.event ts parent values) = s := by
  rcases h with h | ⟨p, hp, hsome⟩
  · subst h; rfl
  · subst hp
    show eventStep s ts (some p) values = s
    rw [eventStep]
    cases hl : alookup s.active_ids p with
    | none => rw [hl] at hsome; cases hsome
    | some i => rfl

/-- C9, amended, witness: the resolved Event of the counterexample
scenario leaves the state untouched. -/
theorem c9_amended_witness : process c9state c9row = c9state := by
  exact c9_amended c9state 5 (some 1) [("k", "v")] (Or.inr ⟨1, rfl, by decide⟩)

/-- C10: processing an End record only erases the record's external id
from `active_ids`; the store, the deferral queues, the outdated set, the
thread stacks and the self-time table are untouched - so an internal id
whose End was processed can stay on a thread stack with an open
self-time entry. -/
theorem c10_end_frame (s : PState) (ts x : Nat) :
    (process s (TraceRow.«end» ts x)).active_ids = aerase s.active_ids x ∧
    (process s (TraceRow.«end» ts x)).store = s.store ∧
    (process s (TraceRow.«end» ts x)).queued_rows = s.queued_rows ∧
    (process s (TraceRow.«end» ts x)).outdated_spans = s.outdated_spans ∧
    (process s (TraceRow.«end» ts x)).thread_stacks = s.thread_stacks ∧
    (process s (TraceRow.«end» ts x)).self_time_started = s.self_time_started := by
  exact ⟨rfl, rfl, rfl, rfl, rfl, rfl⟩

theorem setSelfTime_length (spans : List Span) (i : SpanId) (a b : Nat) :
    (setSelfTime spans i a b).length = spans.length := by
  induction spans generalizing i with
  | nil => rfl
  | cons sp rest ih =>
    cases i with
    | zero => simp [setSelfTime]
    | succ n => simp [setSelfTime, ih]

theorem setSelfTime_name (spans : List Span) (i : SpanId) (a b : Nat) (j : Nat) :
    ((setSelfTime spans i a b)[j]?).map Span.name = (spans[j]?).map Span.name := by
  induction spans generalizing i j with
  | nil => rfl
  | cons sp rest ih =>
    cases i with
    | zero =>
      cases j with
      | zero => simp [setSelfTime]
      | succ m => simp [setSelfTime]
    | succ n =>
      cases j with
      | zero => simp [setSelfTime]
      | succ m => simpa [setSelfTime] using ih n m

/-- Every `process` step changes the store's span list in one of exactly
three ways: not at all, by appending one freshly created span
(`add_span`), or by appending one interval to one existing span
(`add_self_time`). -/
theorem process_spans_shape (s : PState) (r : TraceRow) :
    (process s r).store.spans = s.store.spans ∨
    (∃ sp, (process s r).store.spans = s.store.spans ++ [sp]) ∨
    (∃ i a b, (process s r).store.spans = setSelfTime s.store.spans i a b) := by
  cases r with
  | start ts id parent name target values =>
    cases parent with
    | none => exact Or.inr (Or.inl ⟨_, rfl⟩)
    | some p =>
      simp only [process, startStep]
      cases h : alookup s.active_ids p with
      | none => exact Or.inl rfl
      | some ip => exact Or.inr (Or.inl ⟨_, rfl⟩)
  | «end» ts id => exact Or.inl rfl
  | enter ts id th =>
    simp only [process, enterStep]
    split
    · exact Or.inl rfl
    · split
      · split
        · exact Or.inr (Or.inr ⟨_, _, _, rfl⟩)
        · exact Or.inl rfl
      · exact Or.inl rfl
  | exit ts id th =>
    simp only [process, exitStep]
    split
    · exact Or.inl rfl
    · split
      · simp only [exitClose]
        split
        · exact Or.inr (Or.inr ⟨_, _, _, by rw [exitRemove_store]; rfl⟩)
        · exact Or.inl (congrArg (fun st => st.spans) (exitRemove_store _ _ _ _ _))
      · simp only [exitClose]
        split
        · exact Or.inr (Or.inr ⟨_, _, _, rfl⟩)
        · exact Or.inl rfl
  | event ts parent values =>
    cases parent with
    | none => exact Or.inl rfl
    | some p =>
      simp only [process, eventStep]
      cases h : alookup s.active_ids p with
      | none => exact Or.inl rfl
      | some ip => exact Or.inl rfl

/-- The span list never shrinks under `process`. -/
theorem spans_length_mono (s : PState) (r : TraceRow) :
    s.store.spans.length ≤ (process s r).store.spans.length := by
  rcases process_spans_shape s r with h | ⟨sp, h⟩ | ⟨i, a, b, h⟩ <;>
    simp [h, setSelfTime_length]

/-- The span list never shrinks under a whole run. -/
theorem spans_length_mono_run (rows : List TraceRow) :
    ∀ s : PState, s.store.spans.length ≤ (runFrom s rows).store.spans.length := by
  induction rows with
  | nil => intro s; exact Nat.le_refl _
  | cons r rest ih =>
    intro s
    exact Nat.le_trans (spans_length_mono s r) (ih (process s r))

/-- The name of an already-created span is stable under `process`. -/
theorem nameAt_process (s : PState) (r : TraceRow) (i : Nat)
    (hi : i < s.store.spans.length) :
    ((process s r).store.spans[i]?).map Span.name =
      (s.store.spans[i]?).map Span.name := by
  rcases process_spans_shape s r with h | ⟨sp, h⟩ | ⟨j, a, b, h⟩
  · rw [h]
  · rw [h]
    simp [List.getElem?_append, hi]
  · rw [h, setSelfTime_name]

/-- The name of an already-created span is stable under a whole run. -/
theorem nameAt_runFrom (rows : List TraceRow) :
    ∀ (s : PState) (i : Nat), i < s.store.spans.length →
      ((runFrom s rows).store.spans[i]?).map Span.name =
        (s.store.spans[i]?).map Span.name := by
  induction rows with
  | nil => intro s i hi; rfl
  | cons r rest ih =>
    intro s i hi
    have step := nameAt_process s r i hi
    have hi2 : i < (process s r).store.spans.length :=
      Nat.lt_of_lt_of_le hi (spans_length_mono s r)
    calc ((runFrom (process s r) rest).store.spans[i]?).map Span.name
        = ((process s r).store.spans[i]?).map Span.name := ih (process s r) i hi2
      _ = (s.store.spans[i]?).map Span.name := step

/-- A parentless Start appends exactly one span carrying the given name
and maps the external id to its index. -/
theorem startStep_none_spans (s : PState) (ts id : Nat) (a ta : String)
    (va : List (String × String)) :
    (process s (TraceRow.start ts id none a ta va)).store.spans =
      s.store.spans ++ [⟨none, ts, ta, a, va, []⟩] ∧
    (process s (TraceRow.start ts id none a ta va)).active_ids =
      ainsert s.active_ids id s.store.spans.length := by
  exact ⟨rfl, rfl⟩

/-- C8: in any stream with `Start(x)`, then (possibly after other
records) `End(x)`, then (possibly after other records) another
parentless `Start(x)`, the two Starts allocate distinct internal ids,
both spans are still in the store after the second Start (with their
original names), and `active_ids` then maps x to the second id only. -/
theorem c8_id_reuse (s : PState) (mids1 mids2 : List TraceRow)
    (ts1 ts2 ts3 x : Nat) (a ta b tb : String)
    (va vb : List (String × String)) (s1 s2 s3 : PState) (i1 i2 : Nat)
    (hs1 : s1 = process s (TraceRow.start ts1 x none a ta va))
    (hi1 : i1 = s.store.spans.length)
    (hs2 : s2 = runFrom s1 (mids1 ++ TraceRow.«end» ts2 x :: mids2))
    (hi2 : i2 = s2.store.spans.length)
    (hs3 : s3 = process s2 (TraceRow.start ts3 x none b tb vb)) :
    i1 ≠ i2 ∧
    (s3.store.spans[i1]?).map Span.name = some a ∧
    (s3.store.spans[i2]?).map Span.name = some b ∧
    alookup s3.active_ids x = some i2 := by
  have h1spans : s1.store.spans = s.store.spans ++ [⟨none, ts1, ta, a, va, []⟩] :=
    hs1 ▸ (startStep_none_spans s ts1 x a ta va).1
  have h1len : s1.store.spans.length = i1 + 1 := by
    rw [h1spans, List.length_append, hi1, List.length_singleton]
  have h2mono : s1.store.spans.length ≤ s2.store.spans.length := by
    rw [hs2]; exact spans_length_mono_run _ s1
  have hi1lt1 : i1 < s1.store.spans.length := by omega
  have hi1lt2 : i1 < s2.store.spans.length := by omega
  have h3spans : s3.store.spans = s2.store.spans ++ [⟨none, ts3, tb, b, vb, []⟩] :=
    hs3 ▸ (startStep_none_spans s2 ts3 x b tb vb).1
  refine ⟨by omega, ?_, ?_, ?_⟩
  · have e1 : (s2.store.spans ++ [(⟨none, ts3, tb, b, vb, []⟩ : Span)])[i1]? =
        s2.store.spans[i1]? := by
      simp [List.getElem?_append, hi1lt2]
    rw [h3spans, e1]
    have hrun : (s2.store.spans[i1]?).map Span.name =
        (s1.store.spans[i1]?).map Span.name := by
      rw [hs2]; exact nameAt_runFrom _ s1 i1 hi1lt1
    rw [hrun, h1spans, hi1]
    simp [List.getElem?_append]
  · rw [h3spans, hi2]
    simp [List.getElem?_append]
  · have := (startStep_none_spans s2 ts3 x b tb vb).2
    rw [hs3, this, hi2]
    exact alookup_ainsert_self _ _ _


/-- C8, witness: Start(1,"a"), End(1), Start(1,"b") gives internal ids 0
and 1, both spans retained, and the active map pointing at the second. -/
theorem c8_id_reuse_witness :
    (0 : Nat) ≠ 1 ∧
    ((runRows c8rows).store.spans[0]?).map Span.name = some "a" ∧
    ((runRows c8rows).store.spans[1]?).map Span.name = some "b" ∧
    alookup (runRows c8rows).active_ids 1 = some 1 := by
  exact c8_id_reuse initPState [] [] 0 5 9 1 "a" "" "b" "" [] []
    (process initPState (TraceRow.start 0 1 none "a" "" []))
    (runFrom (process initPState (TraceRow.start 0 1 none "a" "" []))
      ([] ++ TraceRow.«end» 5 1 :: []))
    (runRows c8rows) 0 1 rfl rfl rfl rfl rfl

theorem findIdx?_some_lt {α : Type} (l : List α) (p : α → Bool) (pos : Nat)
    (h : l.findIdx? p = some pos) : pos < l.length := by
  induction l generalizing pos with
  | nil => simp [List.findIdx?] at h
  | cons a rest ih =>
    rw [List.findIdx?_cons] at h
    by_cases hp : p a
    · simp [hp] at h
      simp [← h]
    · simp [hp] at h
      obtain ⟨j, hj, hj2⟩ := h
      have := ih j hj
      simp
      omega

theorem chainLB_append (E : List (Nat × Nat)) (lb a b : Nat)
    (hc : ChainLB lb E) (ha : lastHi lb E ≤ a) (hab : a ≤ b) :
    ChainLB lb (E ++ [(a, b)]) := by
  induction E generalizing lb with
  | nil => exact ⟨ha, hab, trivial⟩
  | cons p rest ih =>
    obtain ⟨c, d⟩ := p
    obtain ⟨h1, h2, h3⟩ := hc
    exact ⟨h1, h2, ih d h3 ha⟩

theorem lastHi_append (E : List (Nat × Nat)) (lb a b : Nat) :
    lastHi lb (E ++ [(a, b)]) = b := by
  induction E generalizing lb with
  | nil => rfl
  | cons p rest ih => exact ih p.2

theorem chainLB_le_lastHi (E : List (Nat × Nat)) (lb : Nat) (hc : ChainLB lb E) :
    lb ≤ lastHi lb E := by
  induction E generalizing lb with
  | nil => exact Nat.le_refl _
  | cons p rest ih =>
    obtain ⟨c, d⟩ := p
    obtain ⟨h1, h2, h3⟩ := hc
    exact Nat.le_trans h1 (Nat.le_trans h2 (ih d h3))

theorem chainLB_sum (E : List (Nat × Nat)) (lb : Nat) (hc : ChainLB lb E) :
    sumLen E + lb ≤ lastHi lb E := by
  induction E generalizing lb with
  | nil => simp [sumLen, lastHi]
  | cons p rest ih =>
    obtain ⟨c, d⟩ := p
    obtain ⟨h1, h2, h3⟩ := hc
    have hrest := ih d h3
    have hsum : sumLen ((c, d) :: rest) = (d - c) + sumLen rest := by
      simp [sumLen]
    have hlast : lastHi lb ((c, d) :: rest) = lastHi d rest := rfl
    rw [hsum, hlast]
    omega

theorem entriesFor_append (S T : Nat) (l1 l2 : List STEntry) :
    entriesFor S T (l1 ++ l2) = entriesFor S T l1 ++ entriesFor S T l2 :=
  List.filterMap_append _ _ _

theorem evsFor_append (S T : Nat) (l1 l2 : List ThreadEv) :
    evsFor S T (l1 ++ l2) = evsFor S T l1 ++ evsFor S T l2 :=
  List.filterMap_append _ _ _

theorem entriesFor_nil (S T : Nat) : entriesFor S T [] = [] := rfl

theorem evsFor_nil (S T : Nat) : evsFor S T [] = [] := rfl

theorem entriesFor_single_hit (S T : Nat) (e : STEntry)
    (h1 : e.span = S) (h2 : e.thread = T) :
    entriesFor S T [e] = [(e.start, e.stop)] := by
  simp [entriesFor, h1, h2]

theorem entriesFor_single_miss (S T : Nat) (e : STEntry)
    (h : ¬ (e.span = S ∧ e.thread = T)) :
    entriesFor S T [e] = [] := by
  simp only [entriesFor, List.filterMap]
  rw [if_neg h]

theorem evsFor_single_hit (S T : Nat) (e : ThreadEv)
    (h1 : e.span = S) (h2 : e.thread = T) :
    evsFor S T [e] = [e.ts] := by
  simp [evsFor, h1, h2]

theorem evsFor_single_miss (S T : Nat) (e : ThreadEv)
    (h : ¬ (e.span = S ∧ e.thread = T)) :
    evsFor S T [e] = [] := by
  simp only [evsFor, List.filterMap]
  rw [if_neg h]

theorem firstEnterTs_append_of_ne (S T : Nat) (es es2 : List ThreadEv)
    (h : evsFor S T es ≠ []) :
    firstEnterTs S T (es ++ es2) = firstEnterTs S T es := by
  unfold firstEnterTs
  rw [evsFor_append]
  cases hE : evsFor S T es with
  | nil => exact absurd hE h
  | cons a rest => simp

theorem firstEnterTs_append_of_nil (S T : Nat) (es es2 : List ThreadEv)
    (h : evsFor S T es = []) :
    firstEnterTs S T (es ++ es2) = firstEnterTs S T es2 := by
  unfold firstEnterTs
  rw [evsFor_append, h, List.nil_append]

theorem startStep_sts (s : PState) (ts id : Nat) (parent : Option Nat)
    (name target : String) (values : List (String × String)) :
    (startStep s ts id parent name target values).self_time_started =
      s.self_time_started := by
  cases parent with
  | none => rfl
  | some p =>
    rw [startStep]
    split <;> rfl

theorem startStep_stacks (s : PState) (ts id : Nat) (parent : Option Nat)
    (name target : String) (values : List (String × String)) :
    (startStep s ts id parent name target values).thread_stacks =
      s.thread_stacks := by
  cases parent with
  | none => rfl
  | some p =>
    rw [startStep]
    split <;> rfl

theorem eventStep_sts (s : PState) (ts : Nat) (parent : Option Nat)
    (values : List (String × String)) :
    (eventStep s ts parent values).self_time_started = s.self_time_started := by
  cases parent with
  | none => rfl
  | some p =>
    rw [eventStep]
    split <;> rfl

theorem eventStep_stacks (s : PState) (ts : Nat) (parent : Option Nat)
    (values : List (String × String)) :
    (eventStep s ts parent values).thread_stacks = s.thread_stacks := by
  cases parent with
  | none => rfl
  | some p =>
    rw [eventStep]
    split <;> rfl

theorem enterStep_unres (s : PState) (ts x th : Nat)
    (hres : alookup s.active_ids x = none) :
    enterStep s ts x th = queuePush s x (TraceRow.enter ts x th) := by
  rw [enterStep, hres]

theorem exitStep_unres (s : PState) (ts x th : Nat)
    (hres : alookup s.active_ids x = none) :
    exitStep s ts x th = queuePush s x (TraceRow.exit ts x th) := by
  rw [exitStep, hres]

theorem enterClosed_none_spec (s : PState) (th p : Nat)
    (hcl : enterClosed s th = none)
    (hl : (stackOfD s th).getLast? = some p) :
    alookup s.self_time_started (p, th) = none := by
  rw [enterClosed, hl] at hcl
  revert hcl
  show (match alookup s.self_time_started (p, th) with
    | some v => some (p, v)
    | none => none) = none → _
  cases hv : alookup s.self_time_started (p, th) with
  | none => intro _; rfl
  | some v => intro hcl; simp at hcl

theorem enterClosed_some_spec (s : PState) (th p v : Nat)
    (hcl : enterClosed s th = some (p, v)) :
    (stackOfD s th).getLast? = some p ∧
    alookup s.self_time_started (p, th) = some v := by
  revert hcl
  rw [enterClosed]
  cases hl : (stackOfD s th).getLast? with
  | none => intro hcl; simp at hcl
  | some parent =>
    show (match alookup s.self_time_started (parent, th) with
      | some w => some (parent, w)
      | none => none) = some (p, v) → _
    cases hv : alookup s.self_time_started (parent, th) with
    | none => intro hcl; simp at hcl
    | some w =>
      intro hcl
      simp at hcl
      obtain ⟨h1, h2⟩ := hcl
      subst h1
      subst h2
      exact ⟨rfl, hv⟩

theorem enterStep_res_none (s : PState) (ts x th i : Nat)
    (hres : alookup s.active_ids x = some i)
    (hcl : enterClosed s th = none) :
    enterStep s ts x th = enterFinish s (stackOfD s th) i ts th := by
  rw [enterStep, hres]
  show (match (stackOfD s th).getLast? with
    | some parent =>
      match alookup s.self_time_started (parent, th) with
      | some v => enterFinish (closeSelf s parent v ts th) (stackOfD s th) i ts th
      | none => enterFinish s (stackOfD s th) i ts th
    | none => enterFinish s (stackOfD s th) i ts th) = _
  cases hl : (stackOfD s th).getLast? with
  | none => rfl
  | some parent =>
    show (match alookup s.self_time_started (parent, th) with
      | some v => enterFinish (closeSelf s parent v ts th) (stackOfD s th) i ts th
      | none => enterFinish s (stackOfD s th) i ts th) = _
    rw [enterClosed_none_spec s th parent hcl hl]

theorem enterStep_res_some (s : PState) (ts x th i p v : Nat)
    (hres : alookup s.active_ids x = some i)
    (hcl : enterClosed s th = some (p, v)) :
    enterStep s ts x th =
      enterFinish (closeSelf s p v ts th) (stackOfD s th) i ts th := by
  obtain ⟨hl, hv⟩ := enterClosed_some_spec s th p v hcl
  rw [enterStep, hres]
  show (match (stackOfD s th).getLast? with
    | some parent =>
      match alookup s.self_time_started (parent, th) with
      | some w => enterFinish (closeSelf s parent w ts th) (stackOfD s th) i ts th
      | none => enterFinish s (stackOfD s th) i ts th
    | none => enterFinish s (stackOfD s th) i ts th) = _
  rw [hl]
  show (match alookup s.self_time_started (p, th) with
    | some w => enterFinish (closeSelf s p w ts th) (stackOfD s th) i ts th
    | none => enterFinish s (stackOfD s th) i ts th) = _
  rw [hv]

theorem exitClose_none (s1 : PState) (i ts th : Nat)
    (hv : alookup s1.self_time_started (i, th) = none) :
    exitClose s1 i ts th = s1 := by
  rw [exitClose, hv]

theorem exitClose_some (s1 : PState) (i ts th v : Nat)
    (hv : alookup s1.self_time_started (i, th) = some v) :
    exitClose s1 i ts th = { s1 with
      store := (s1.store.add_self_time i v ts s1.outdated_spans).1,
      outdated_spans := (s1.store.add_self_time i v ts s1.outdated_spans).2,
      self_time_started := aerase s1.self_time_started (i, th) } := by
  rw [exitClose, hv]

theorem newSelfTimes_enter_unres (s : PState) (ts x th : Nat)
    (hres : alookup s.active_ids x = none) :
    newSelfTimes s (TraceRow.enter ts x th) = [] := by
  rw [newSelfTimes, hres]

theorem newSelfTimes_enter_none (s : PState) (ts x th i : Nat)
    (hres : alookup s.active_ids x = some i)
    (hcl : enterClosed s th = none) :
    newSelfTimes s (TraceRow.enter ts x th) = [] := by
  rw [newSelfTimes, hres]
  show (match (stackOfD s th).getLast? with
    | some parent =>
      match alookup s.self_time_started (parent, th) with
      | some v => [(⟨parent, th, v, ts⟩ : STEntry)]
      | none => []
    | none => []) = _
  cases hl : (stackOfD s th).getLast? with
  | none => rfl
  | some parent =>
    show (match alookup s.self_time_started (parent, th) with
      | some v => [(⟨parent, th, v, ts⟩ : STEntry)]
      | none => []) = _
    rw [enterClosed_none_spec s th parent hcl hl]

theorem newSelfTimes_enter_some (s : PState) (ts x th i p v : Nat)
    (hres : alookup s.active_ids x = some i)
    (hcl : enterClosed s th = some (p, v)) :
    newSelfTimes s (TraceRow.enter ts x th) = [⟨p, th, v, ts⟩] := by
  obtain ⟨hl, hv⟩ := enterClosed_some_spec s th p v hcl
  rw [newSelfTimes, hres]
  show (match (stackOfD s th).getLast? with
    | some parent =>
      match alookup s.self_time_started (parent, th) with
      | some w => [(⟨parent, th, w, ts⟩ : STEntry)]
      | none => []
    | none => []) = _
  rw [hl]
  show (match alookup s.self_time_started (p, th) with
    | some w => [(⟨p, th, w, ts⟩ : STEntry)]
    | none => []) = _
  rw [hv]

theorem newEnters_enter_res (s : PState) (ts x th i : Nat)
    (hres : alookup s.active_ids x = some i) :
    newEnters s (TraceRow.enter ts x th) = [⟨i, th, ts⟩] := by
  rw [newEnters, hres]

theorem newEnters_enter_unres (s : PState) (ts x th : Nat)
    (hres : alookup s.active_ids x = none) :
    newEnters s (TraceRow.enter ts x th) = [] := by
  rw [newEnters, hres]

theorem enterFinish_sts (s0 : PState) (stack0 : List SpanId) (i ts th : Nat) :
    (enterFinish s0 stack0 i ts th).self_time_started =
      ainsert s0.self_time_started (i, th) ts := rfl

theorem enterFinish_stacks (s0 : PState) (stack0 : List SpanId) (i ts th : Nat) :
    (enterFinish s0 stack0 i ts th).thread_stacks =
      ainsert s0.thread_stacks th (stack0 ++ [i]) := rfl

theorem closeSelf_sts (s : PState) (p v ts th : Nat) :
    (closeSelf s p v ts th).self_time_started =
      aerase s.self_time_started (p, th) := rfl

theorem closeSelf_stacks (s : PState) (p v ts th : Nat) :
    (closeSelf s p v ts th).thread_stacks = s.thread_stacks := rfl

theorem stackOfD_enterFinish (s0 : PState) (stack0 : List SpanId) (i ts th : Nat) :
    stackOfD (enterFinish s0 stack0 i ts th) th = stack0 ++ [i] := by
  show (alookup (ainsert s0.thread_stacks th (stack0 ++ [i])) th).getD [] = _
  rw [alookup_ainsert_self]
  rfl

theorem stackOfD_enterFinish_ne (s0 : PState) (stack0 : List SpanId)
    (i ts th T : Nat) (h : T ≠ th) :
    stackOfD (enterFinish s0 stack0 i ts th) T = stackOfD s0 T := by
  show (alookup (ainsert s0.thread_stacks th (stack0 ++ [i])) T).getD [] = _
  rw [alookup_ainsert_ne _ _ _ _ h]
  rfl

/-- Transfer of the per-span invariant when nothing relevant to span `S`
on thread `T` changed and the timestamp bound only grew. -/
theorem INVat_frame (T S : Nat) {s s' : PState} {log log' : List STEntry}
    {enters enters' : List ThreadEv} {M M' : Nat}
    (hsts : alookup s'.self_time_started (S, T) = alookup s.self_time_started (S, T))
    (hstk : S ∈ stackOfD s' T → S ∈ stackOfD s T)
    (hM : M ≤ M')
    (hlog : entriesFor S T log' = entriesFor S T log)
    (hE : evsFor S T enters' = evsFor S T enters)
    (h : INVat T S s log enters M) :
    INVat T S s' log' enters' M' := by
  have hfE : firstEnterTs S T enters' = firstEnterTs S T enters := by
    unfold firstEnterTs
    rw [hE]
  constructor
  · rw [hlog, hE]
    exact h.entries_enters
  · rw [hlog, hfE]
    exact h.chain
  · rw [hlog, hfE]
    exact Nat.le_trans h.hi_le hM
  · intro v hv
    rw [hsts] at hv
    obtain ⟨h1, h2, h3⟩ := h.sts_bound v hv
    refine ⟨?_, ?_, Nat.le_trans h3 hM⟩
    · rw [hE]
      exact h1
    · rw [hlog, hfE]
      exact h2
  · intro hmem
    rw [hE]
    exact h.stack_enters (hstk hmem)

/-- Appending the closed interval `(v, ts)` of span `p` keeps the chain
facts, provided the interval comes from an open self-time entry and the
close timestamp is at or after the current bound. -/
theorem INVat_close (T S : Nat) (s : PState) (log : List STEntry)
    (enters : List ThreadEv) (M ts p v : Nat)
    (h : INVat T S s log enters M)
    (hv : alookup s.self_time_started (p, T) = some v)
    (hts : M ≤ ts) :
    ChainLB (firstEnterTs S T enters) (entriesFor S T (log ++ [⟨p, T, v, ts⟩])) ∧
    lastHi (firstEnterTs S T enters) (entriesFor S T (log ++ [⟨p, T, v, ts⟩])) ≤ ts ∧
    (entriesFor S T (log ++ [⟨p, T, v, ts⟩]) ≠ [] → evsFor S T enters ≠ []) := by
  rw [entriesFor_append]
  by_cases hS : p = S
  · subst hS
    rw [entriesFor_single_hit p T ⟨p, T, v, ts⟩ rfl rfl]
    obtain ⟨h1, h2, h3⟩ := h.sts_bound v hv
    refine ⟨chainLB_append _ _ _ _ h.chain h2 (Nat.le_trans h3 hts), ?_, ?_⟩
    · rw [lastHi_append]
    · intro _
      exact h1
  · rw [entriesFor_single_miss S T ⟨p, T, v, ts⟩ (by simp [hS]), List.append_nil]
    exact ⟨h.chain, Nat.le_trans h.hi_le hts, h.entries_enters⟩

/-- Invariant preservation for a resolved Enter on the tracked thread
when no interval is closed (empty stack or no open entry on top). -/
theorem INV_enter_T_none (T : Nat) (s : PState) (log : List STEntry)
    (enters : List ThreadEv) (M ts x i : Nat)
    (hres : alookup s.active_ids x = some i)
    (_hcl : enterClosed s T = none)
    (hInv : INV T s log enters M) (hMts : M ≤ ts) :
    INV T (enterFinish s (stackOfD s T) i ts T) log (enters ++ [⟨i, T, ts⟩]) ts := by
  intro S
  have hstsS : alookup (enterFinish s (stackOfD s T) i ts T).self_time_started (S, T) =
      alookup (ainsert s.self_time_started (i, T) ts) (S, T) := rfl
  by_cases hSi : S = i
  · subst hSi
    have hEapp : evsFor S T (enters ++ [⟨S, T, ts⟩]) = evsFor S T enters ++ [ts] := by
      rw [evsFor_append, evsFor_single_hit S T ⟨S, T, ts⟩ rfl rfl]
    by_cases hE0 : evsFor S T enters = []
    · have hE' : evsFor S T (enters ++ [⟨S, T, ts⟩]) = [ts] := by
        rw [hEapp, hE0, List.nil_append]
      have hne' : evsFor S T (enters ++ [⟨S, T, ts⟩]) ≠ [] := by
        rw [hE']
        simp
      have hfE' : firstEnterTs S T (enters ++ [⟨S, T, ts⟩]) = ts := by
        unfold firstEnterTs
        rw [hE']
        rfl
      have hP : entriesFor S T log = [] := by
        by_contra hne
        exact (hInv S).entries_enters hne hE0
      constructor
      · intro _
        exact hne'
      · rw [hP, hfE']
        trivial
      · rw [hP, hfE']
        exact Nat.le_refl ts
      · intro v hv
        rw [hstsS, alookup_ainsert_self] at hv
        injection hv with hvv
        subst hvv
        refine ⟨hne', ?_, Nat.le_refl ts⟩
        rw [hP, hfE']
        exact Nat.le_refl ts
      · intro _
        exact hne'
    · have hfE' : firstEnterTs S T (enters ++ [⟨S, T, ts⟩]) = firstEnterTs S T enters :=
        firstEnterTs_append_of_ne S T enters _ hE0
      have hne' : evsFor S T (enters ++ [⟨S, T, ts⟩]) ≠ [] := by
        rw [hEapp]
        simp
      constructor
      · intro _
        exact hne'
      · rw [hfE']
        exact (hInv S).chain
      · rw [hfE']
        exact Nat.le_trans (hInv S).hi_le hMts
      · intro v hv
        rw [hstsS, alookup_ainsert_self] at hv
        injection hv with hvv
        subst hvv
        refine ⟨hne', ?_, Nat.le_refl ts⟩
        rw [hfE']
        exact Nat.le_trans (hInv S).hi_le hMts
      · intro _
        exact hne'
  · have hmiss : ¬ ((⟨i, T, ts⟩ : ThreadEv).span = S ∧ (⟨i, T, ts⟩ : ThreadEv).thread = T) :=
      fun hc => hSi hc.1.symm
    have hEapp : evsFor S T (enters ++ [⟨i, T, ts⟩]) = evsFor S T enters := by
      rw [evsFor_append, evsFor_single_miss S T _ hmiss, List.append_nil]
    refine INVat_frame T S ?_ ?_ hMts rfl hEapp (hInv S)
    · rw [hstsS]
      exact alookup_ainsert_ne _ _ _ _ (fun hc => hSi (congrArg Prod.fst hc))
    · intro hmem
      rw [stackOfD_enterFinish] at hmem
      rcases List.mem_append.mp hmem with hmem1 | hmem2
      · exact hmem1
      · exact absurd (List.mem_singleton.mp hmem2) hSi

/-- Invariant preservation for a resolved Enter on the tracked thread
when the top of the stack's open interval is closed. -/
theorem INV_enter_T_some (T : Nat) (s : PState) (log : List STEntry)
    (enters : List ThreadEv) (M ts x i p v : Nat)
    (hres : alookup s.active_ids x = some i)
    (hcl : enterClosed s T = some (p, v))
    (hInv : INV T s log enters M) (hMts : M ≤ ts) :
    INV T (enterFinish (closeSelf s p v ts T) (stackOfD s T) i ts T)
      (log ++ [⟨p, T, v, ts⟩]) (enters ++ [⟨i, T, ts⟩]) ts := by
  obtain ⟨hlast, hv⟩ := enterClosed_some_spec s T p v hcl
  intro S
  have hstsS : alookup (enterFinish (closeSelf s p v ts T) (stackOfD s T) i ts T).self_time_started
      (S, T) = alookup (ainsert (aerase s.self_time_started (p, T)) (i, T) ts) (S, T) := rfl
  have hstk : stackOfD (enterFinish (closeSelf s p v ts T) (stackOfD s T) i ts T) T =
      stackOfD s T ++ [i] := stackOfD_enterFinish _ _ _ _ _
  obtain ⟨hchain', hhi', hee'⟩ := INVat_close T S s log enters M ts p v (hInv S) hv hMts
  by_cases hSi : S = i
  · subst hSi
    have hEapp : evsFor S T (enters ++ [⟨S, T, ts⟩]) = evsFor S T enters ++ [ts] := by
      rw [evsFor_append, evsFor_single_hit S T ⟨S, T, ts⟩ rfl rfl]
    by_cases hE0 : evsFor S T enters = []
    · have hpS : p ≠ S := by
        intro hpeq
        have hp1 := ((hInv p).sts_bound v hv).1
        rw [hpeq] at hp1
        exact hp1 hE0
      have hP : entriesFor S T log = [] := by
        by_contra hne
        exact (hInv S).entries_enters hne hE0
      have hP' : entriesFor S T (log ++ [⟨p, T, v, ts⟩]) = [] := by
        rw [entriesFor_append, entriesFor_single_miss S T _ (fun hc => hpS hc.1), hP,
          List.append_nil]
      have hE' : evsFor S T (enters ++ [⟨S, T, ts⟩]) = [ts] := by
        rw [hEapp, hE0, List.nil_append]
      have hne' : evsFor S T (enters ++ [⟨S, T, ts⟩]) ≠ [] := by
        rw [hE']
        simp
      have hfE' : firstEnterTs S T (enters ++ [⟨S, T, ts⟩]) = ts := by
        unfold firstEnterTs
        rw [hE']
        rfl
      constructor
      · intro _
        exact hne'
      · rw [hP', hfE']
        trivial
      · rw [hP', hfE']
        exact Nat.le_refl ts
      · intro w hw
        rw [hstsS, alookup_ainsert_self] at hw
        injection hw with hww
        subst hww
        refine ⟨hne', ?_, Nat.le_refl ts⟩
        rw [hP', hfE']
        exact Nat.le_refl ts
      · intro _
        exact hne'
    · have hfE' : firstEnterTs S T (enters ++ [⟨S, T, ts⟩]) = firstEnterTs S T enters :=
        firstEnterTs_append_of_ne S T enters _ hE0
      have hne' : evsFor S T (enters ++ [⟨S, T, ts⟩]) ≠ [] := by
        rw [hEapp]
        simp
      constructor
      · intro _
        exact hne'
      · rw [hfE']
        exact hchain'
      · rw [hfE']
        exact hhi'
      · intro w hw
        rw [hstsS, alookup_ainsert_self] at hw
        injection hw with hww
        subst hww
        refine ⟨hne', ?_, Nat.le_refl ts⟩
        rw [hfE']
        exact hhi'
      · intro _
        exact hne'
  · have hmiss : ¬ ((⟨i, T, ts⟩ : ThreadEv).span = S ∧ (⟨i, T, ts⟩ : ThreadEv).thread = T) :=
      fun hc => hSi hc.1.symm
    have hEapp : evsFor S T (enters ++ [⟨i, T, ts⟩]) = evsFor S T enters := by
      rw [evsFor_append, evsFor_single_miss S T _ hmiss, List.append_nil]
    have hfE' : firstEnterTs S T (enters ++ [⟨i, T, ts⟩]) = firstEnterTs S T enters := by
      unfold firstEnterTs
      rw [hEapp]
    constructor
    · intro hne
      rw [hEapp]
      exact hee' hne
    · rw [hfE']
      exact hchain'
    · rw [hfE']
      exact hhi'
    · intro w hw
      rw [hstsS, alookup_ainsert_ne _ _ _ _ (fun hc => hSi (congrArg Prod.fst hc)),
        alookup_aerase] at hw
      by_cases hSp : S = p
      · rw [if_pos (by rw [hSp])] at hw
        cases hw
      · rw [if_neg (fun hc => hSp (congrArg Prod.fst hc))] at hw
        obtain ⟨h1, h2, h3⟩ := (hInv S).sts_bound w hw
        refine ⟨by rw [hEapp]; exact h1, ?_, Nat.le_trans h3 hMts⟩
        rw [hfE', entriesFor_append, entriesFor_single_miss S T _ (fun hc => hSp hc.1.symm),
          List.append_nil]
        exact h2
    · intro hmem
      rw [hstk] at hmem
      rcases List.mem_append.mp hmem with h1 | h2
      · rw [hEapp]
        exact (hInv S).stack_enters h1
      · exact absurd (List.mem_singleton.mp h2) hSi

/-- Invariant preservation for a resolved Enter on the tracked thread. -/
theorem INV_enter_T (T : Nat) (s : PState) (log : List STEntry)
    (enters : List ThreadEv) (M ts x i : Nat)
    (hres : alookup s.active_ids x = some i)
    (hInv : INV T s log enters M) (hMts : M ≤ ts) :
    INV T (enterStep s ts x T)
      (log ++ newSelfTimes s (TraceRow.enter ts x T))
      (enters ++ newEnters s (TraceRow.enter ts x T)) ts := by
  rw [newEnters_enter_res s ts x T i hres]
  cases hcl : enterClosed s T with
  | none =>
    rw [enterStep_res_none s ts x T i hres hcl,
      newSelfTimes_enter_none s ts x T i hres hcl]
    intro S
    exact INVat_frame T S rfl (fun h => h) (Nat.le_refl ts) (by rw [List.append_nil]) rfl
      (INV_enter_T_none T s log enters M ts x i hres hcl hInv hMts S)
  | some pv =>
    obtain ⟨p, v⟩ := pv
    rw [enterStep_res_some s ts x T i p v hres hcl,
      newSelfTimes_enter_some s ts x T i p v hres hcl]
    exact INV_enter_T_some T s log enters M ts x i p v hres hcl hInv hMts

theorem exitRemove_sts_zero (s : PState) (stack0 : List SpanId) (k ts th : Nat)
    (hk : ¬ 0 < k) :
    (exitRemove s stack0 k ts th).self_time_started = s.self_time_started := by
  rw [exitRemove, if_neg hk]

theorem stackOfD_exitRemove (s : PState) (stack0 : List SpanId) (k ts th : Nat) :
    stackOfD (exitRemove s stack0 k ts th) th = stack0.eraseIdx k := by
  show (alookup (exitRemove s stack0 k ts th).thread_stacks th).getD [] = _
  rw [exitRemove_stacks, alookup_ainsert_self]
  rfl

theorem exitStep_notfound (s : PState) (ts x th i : Nat)
    (hres : alookup s.active_ids x = some i)
    (hpos : (stackOfD s th).reverse.findIdx? (fun y => decide (y = i)) = none) :
    exitStep s ts x th =
      exitClose { s with thread_stacks := ainsert s.thread_stacks th (stackOfD s th) }
        i ts th := by
  rw [exitStep, hres]
  show (match (stackOfD s th).reverse.findIdx? (fun y => decide (y = i)) with
    | some pos =>
      exitClose
        (exitRemove s (stackOfD s th) ((stackOfD s th).length - pos - 1) ts th)
        i ts th
    | none =>
      exitClose
        { s with thread_stacks := ainsert s.thread_stacks th (stackOfD s th) }
        i ts th) = _
  rw [hpos]

theorem newSelfTimes_exit_unres (s : PState) (ts x th : Nat)
    (hres : alookup s.active_ids x = none) :
    newSelfTimes s (TraceRow.exit ts x th) = [] := by
  rw [newSelfTimes, hres]

theorem newSelfTimes_exit_found_some (s : PState) (ts x th i pos v : Nat)
    (hres : alookup s.active_ids x = some i)
    (hpos : (stackOfD s th).reverse.findIdx? (fun y => decide (y = i)) = some pos)
    (hv : alookup (exitRemove s (stackOfD s th)
      ((stackOfD s th).length - pos - 1) ts th).self_time_started (i, th) = some v) :
    newSelfTimes s (TraceRow.exit ts x th) = [⟨i, th, v, ts⟩] := by
  rw [newSelfTimes, hres]
  show (match (stackOfD s th).reverse.findIdx? (fun y => decide (y = i)) with
    | some pos =>
      match alookup (exitRemove s (stackOfD s th)
          ((stackOfD s th).length - pos - 1) ts th).self_time_started (i, th) with
      | some v => [(⟨i, th, v, ts⟩ : STEntry)]
      | none => []
    | none =>
      match alookup s.self_time_started (i, th) with
      | some v => [(⟨i, th, v, ts⟩ : STEntry)]
      | none => []) = _
  rw [hpos]
  show (match alookup (exitRemove s (stackOfD s th)
      ((stackOfD s th).length - pos - 1) ts th).self_time_started (i, th) with
    | some v => [(⟨i, th, v, ts⟩ : STEntry)]
    | none => []) = _
  rw [hv]

theorem newSelfTimes_exit_found_none (s : PState) (ts x th i pos : Nat)
    (hres : alookup s.active_ids x = some i)
    (hpos : (stackOfD s th).reverse.findIdx? (fun y => decide (y = i)) = some pos)
    (hv : alookup (exitRemove s (stackOfD s th)
      ((stackOfD s th).length - pos - 1) ts th).self_time_started (i, th) = none) :
    newSelfTimes s (TraceRow.exit ts x th) = [] := by
  rw [newSelfTimes, hres]
  show (match (stackOfD s th).reverse.findIdx? (fun y => decide (y = i)) with
    | some pos =>
      match alookup (exitRemove s (stackOfD s th)
          ((stackOfD s th).length - pos - 1) ts th).self_time_started (i, th) with
      | some v => [(⟨i, th, v, ts⟩ : STEntry)]
      | none => []
    | none =>
      match alookup s.self_time_started (i, th) with
      | some v => [(⟨i, th, v, ts⟩ : STEntry)]
      | none => []) = _
  rw [hpos]
  show (match alookup (exitRemove s (stackOfD s th)
      ((stackOfD s th).length - pos - 1) ts th).self_time_started (i, th) with
    | some v => [(⟨i, th, v, ts⟩ : STEntry)]
    | none => []) = _
  rw [hv]

theorem newSelfTimes_exit_nf_some (s : PState) (ts x th i v : Nat)
    (hres : alookup s.active_ids x = some i)
    (hpos : (stackOfD s th).reverse.findIdx? (fun y => decide (y = i)) = none)
    (hv : alookup s.self_time_started (i, th) = some v) :
    newSelfTimes s (TraceRow.exit ts x th) = [⟨i, th, v, ts⟩] := by
  rw [newSelfTimes, hres]
  show (match (stackOfD s th).reverse.findIdx? (fun y => decide (y = i)) with
    | some pos =>
      match alookup (exitRemove s (stackOfD s th)
          ((stackOfD s th).length - pos - 1) ts th).self_time_started (i, th) with
      | some v => [(⟨i, th, v, ts⟩ : STEntry)]
      | none => []
    | none =>
      match alookup s.self_time_started (i, th) with
      | some v => [(⟨i, th, v, ts⟩ : STEntry)]
      | none => []) = _
  rw [hpos]
  show (match alookup s.self_time_started (i, th) with
    | some v => [(⟨i, th, v, ts⟩ : STEntry)]
    | none => []) = _
  rw [hv]

theorem newSelfTimes_exit_nf_none (s : PState) (ts x th i : Nat)
    (hres : alookup s.active_ids x = some i)
    (hpos : (stackOfD s th).reverse.findIdx? (fun y => decide (y = i)) = none)
    (hv : alookup s.self_time_started (i, th) = none) :
    newSelfTimes s (TraceRow.exit ts x th) = [] := by
  rw [newSelfTimes, hres]
  show (match (stackOfD s th).reverse.findIdx? (fun y => decide (y = i)) with
    | some pos =>
      match alookup (exitRemove s (stackOfD s th)
          ((stackOfD s th).length - pos - 1) ts th).self_time_started (i, th) with
      | some v => [(⟨i, th, v, ts⟩ : STEntry)]
      | none => []
    | none =>
      match alookup s.self_time_started (i, th) with
      | some v => [(⟨i, th, v, ts⟩ : STEntry)]
      | none => []) = _
  rw [hpos]
  show (match alookup s.self_time_started (i, th) with
    | some v => [(⟨i, th, v, ts⟩ : STEntry)]
    | none => []) = _
  rw [hv]

theorem exit_q_mem (stack0 : List SpanId) (pos k : Nat)
    (hpos : pos < stack0.length) (hk : 0 < k)
    (hkdef : k = stack0.length - pos - 1) :
    (stack0.eraseIdx k).getD (k - 1) 0 ∈ stack0 := by
  have hklt : k < stack0.length := by omega
  have hlen : (stack0.eraseIdx k).length = stack0.length - 1 :=
    List.length_eraseIdx_of_lt hklt
  have hb : k - 1 < (stack0.eraseIdx k).length := by omega
  have hmem : (stack0.eraseIdx k).getD (k - 1) 0 ∈ stack0.eraseIdx k := by
    rw [List.getD_eq_getElem _ _ hb]
    exact List.getElem_mem hb
  exact List.mem_of_mem_eraseIdx hmem

/-- Variant of the close lemma where the provenance of the interval start
is given directly for the matching span. -/
theorem INVat_close_gen (T S : Nat) (s : PState) (log : List STEntry)
    (enters : List ThreadEv) (M ts p v : Nat)
    (h : INVat T S s log enters M) (hts : M ≤ ts)
    (hp : p = S → evsFor S T enters ≠ [] ∧
      lastHi (firstEnterTs S T enters) (entriesFor S T log) ≤ v ∧ v ≤ ts) :
    ChainLB (firstEnterTs S T enters) (entriesFor S T (log ++ [⟨p, T, v, ts⟩])) ∧
    lastHi (firstEnterTs S T enters) (entriesFor S T (log ++ [⟨p, T, v, ts⟩])) ≤ ts ∧
    (entriesFor S T (log ++ [⟨p, T, v, ts⟩]) ≠ [] → evsFor S T enters ≠ []) := by
  rw [entriesFor_append]
  by_cases hS : p = S
  · obtain ⟨h1, h2, h3⟩ := hp hS
    subst hS
    rw [entriesFor_single_hit p T ⟨p, T, v, ts⟩ rfl rfl]
    refine ⟨chainLB_append _ _ _ _ h.chain h2 h3, ?_, fun _ => h1⟩
    rw [lastHi_append]
  · rw [entriesFor_single_miss S T ⟨p, T, v, ts⟩ (by simp [hS]), List.append_nil]
    exact ⟨h.chain, Nat.le_trans h.hi_le hts, h.entries_enters⟩

/-- Invariant preservation for the closing half of the Exit arm when no
interval is closed.  `s1` is the state after the removal half, whose
self-time table either equals the original or contains one re-armed entry
`(q, T) ↦ ts` for a span `q` that was on the stack. -/
theorem INV_exit_close_none (T : Nat) (s s1 : PState) (log : List STEntry)
    (enters : List ThreadEv) (M ts i : Nat)
    (hInv : INV T s log enters M) (hMts : M ≤ ts)
    (hstk1 : ∀ S, S ∈ stackOfD s1 T → S ∈ stackOfD s T)
    (hsts1 : s1.self_time_started = s.self_time_started ∨
      ∃ q, q ∈ stackOfD s T ∧
        s1.self_time_started = ainsert s.self_time_started (q, T) ts)
    (hv : alookup s1.self_time_started (i, T) = none) :
    INV T (exitClose s1 i ts T) log enters ts := by
  rw [exitClose_none s1 i ts T hv]
  intro S
  constructor
  · exact (hInv S).entries_enters
  · exact (hInv S).chain
  · exact Nat.le_trans (hInv S).hi_le hMts
  · intro w hw
    rcases hsts1 with heq | ⟨q, hqmem, heq⟩
    · rw [heq] at hw
      obtain ⟨h1, h2, h3⟩ := (hInv S).sts_bound w hw
      exact ⟨h1, h2, Nat.le_trans h3 hMts⟩
    · rw [heq] at hw
      by_cases hSq : (S, T) = ((q, T) : SpanId × Nat)
      · rw [hSq, alookup_ainsert_self] at hw
        injection hw with hww
        subst hww
        have hSq2 : S = q := congrArg Prod.fst hSq
        refine ⟨?_, Nat.le_trans (hInv S).hi_le hMts, Nat.le_refl ts⟩
        rw [hSq2]
        exact (hInv q).stack_enters hqmem
      · rw [alookup_ainsert_ne _ _ _ _ hSq] at hw
        obtain ⟨h1, h2, h3⟩ := (hInv S).sts_bound w hw
        exact ⟨h1, h2, Nat.le_trans h3 hMts⟩
  · intro hmem
    exact (hInv S).stack_enters (hstk1 S hmem)

/-- Invariant preservation for the closing half of the Exit arm when the
interval `(v, ts)` of span `i` is closed. -/
theorem INV_exit_close_some (T : Nat) (s s1 : PState) (log : List STEntry)
    (enters : List ThreadEv) (M ts i v : Nat)
    (hInv : INV T s log enters M) (hMts : M ≤ ts)
    (hstk1 : ∀ S, S ∈ stackOfD s1 T → S ∈ stackOfD s T)
    (hsts1 : s1.self_time_started = s.self_time_started ∨
      ∃ q, q ∈ stackOfD s T ∧
        s1.self_time_started = ainsert s.self_time_started (q, T) ts)
    (hv : alookup s1.self_time_started (i, T) = some v) :
    INV T (exitClose s1 i ts T) (log ++ [⟨i, T, v, ts⟩]) enters ts := by
  rw [exitClose_some s1 i ts T v hv]
  intro S
  have hp : i = S → evsFor S T enters ≠ [] ∧
      lastHi (firstEnterTs S T enters) (entriesFor S T log) ≤ v ∧ v ≤ ts := by
    intro hiS
    subst hiS
    rcases hsts1 with heq | ⟨q, hqmem, heq⟩
    · rw [heq] at hv
      obtain ⟨h1, h2, h3⟩ := (hInv i).sts_bound v hv
      exact ⟨h1, h2, Nat.le_trans h3 hMts⟩
    · rw [heq] at hv
      by_cases hiq : ((i, T) : SpanId × Nat) = (q, T)
      · rw [hiq, alookup_ainsert_self] at hv
        injection hv with hvv
        subst hvv
        have hiq2 : i = q := congrArg Prod.fst hiq
        refine ⟨?_, Nat.le_trans (hInv i).hi_le hMts, Nat.le_refl ts⟩
        rw [hiq2]
        exact (hInv q).stack_enters hqmem
      · rw [alookup_ainsert_ne _ _ _ _ hiq] at hv
        obtain ⟨h1, h2, h3⟩ := (hInv i).sts_bound v hv
        exact ⟨h1, h2, Nat.le_trans h3 hMts⟩
  obtain ⟨hchain', hhi', hee'⟩ :=
    INVat_close_gen T S s log enters M ts i v (hInv S) hMts hp
  constructor
  · exact hee'
  · exact hchain'
  · exact hhi'
  · intro w hw
    have hw2 : alookup (aerase s1.self_time_started (i, T)) (S, T) = some w := hw
    rw [alookup_aerase] at hw2
    by_cases hSi : S = i
    · rw [if_pos (by rw [hSi])] at hw2
      cases hw2
    · rw [if_neg (fun hc => hSi (congrArg Prod.fst hc))] at hw2
      have hPmiss : entriesFor S T (log ++ [(⟨i, T, v, ts⟩ : STEntry)]) =
          entriesFor S T log := by
        rw [entriesFor_append, entriesFor_single_miss S T _ (fun hc => hSi hc.1.symm),
          List.append_nil]
      rcases hsts1 with heq | ⟨q, hqmem, heq⟩
      · rw [heq] at hw2
        obtain ⟨h1, h2, h3⟩ := (hInv S).sts_bound w hw2
        refine ⟨h1, ?_, Nat.le_trans h3 hMts⟩
        rw [hPmiss]
        exact h2
      · rw [heq] at hw2
        by_cases hSq : (S, T) = ((q, T) : SpanId × Nat)
        · rw [hSq, alookup_ainsert_self] at hw2
          injection hw2 with hww
          subst hww
          have hSq2 : S = q := congrArg Prod.fst hSq
          refine ⟨?_, ?_, Nat.le_refl ts⟩
          · rw [hSq2]
            exact (hInv q).stack_enters hqmem
          · rw [hPmiss]
            exact Nat.le_trans (hInv S).hi_le hMts
        · rw [alookup_ainsert_ne _ _ _ _ hSq] at hw2
          obtain ⟨h1, h2, h3⟩ := (hInv S).sts_bound w hw2
          refine ⟨h1, ?_, Nat.le_trans h3 hMts⟩
          rw [hPmiss]
          exact h2
  · intro hmem
    have hmem2 : S ∈ stackOfD s1 T := hmem
    exact (hInv S).stack_enters (hstk1 S hmem2)

/-- Invariant preservation for a resolved Exit on the tracked thread. -/
theorem INV_exit_T (T : Nat) (s : PState) (log : List STEntry)
    (enters : List ThreadEv) (M ts x i : Nat)
    (hres : alookup s.active_ids x = some i)
    (hInv : INV T s log enters M) (hMts : M ≤ ts) :
    INV T (exitStep s ts x T)
      (log ++ newSelfTimes s (TraceRow.exit ts x T))
      (enters ++ newEnters s (TraceRow.exit ts x T)) ts := by
  have hnewE : newEnters s (TraceRow.exit ts x T) = [] := rfl
  rw [hnewE, List.append_nil]
  cases hpos : (stackOfD s T).reverse.findIdx? (fun y => decide (y = i)) with
  | none =>
    have hstk1 : ∀ S, S ∈ stackOfD
        ({ s with thread_stacks := ainsert s.thread_stacks T (stackOfD s T) } : PState) T →
        S ∈ stackOfD s T := by
      intro S hmem
      have heq : stackOfD
          ({ s with thread_stacks := ainsert s.thread_stacks T (stackOfD s T) } : PState) T =
          stackOfD s T := by
        show (alookup (ainsert s.thread_stacks T (stackOfD s T)) T).getD [] = _
        rw [alookup_ainsert_self]
        rfl
      rwa [heq] at hmem
    cases hv : alookup s.self_time_started (i, T) with
    | none =>
      rw [exitStep_notfound s ts x T i hres hpos,
        newSelfTimes_exit_nf_none s ts x T i hres hpos hv, List.append_nil]
      exact INV_exit_close_none T s _ log enters M ts i hInv hMts hstk1 (Or.inl rfl) hv
    | some v =>
      rw [exitStep_notfound s ts x T i hres hpos,
        newSelfTimes_exit_nf_some s ts x T i v hres hpos hv]
      exact INV_exit_close_some T s _ log enters M ts i v hInv hMts hstk1 (Or.inl rfl) hv
  | some pos =>
    have hposlt : pos < (stackOfD s T).length := by
      have h0 := findIdx?_some_lt _ _ _ hpos
      rwa [List.length_reverse] at h0
    have hstk1 : ∀ S, S ∈ stackOfD
        (exitRemove s (stackOfD s T) ((stackOfD s T).length - pos - 1) ts T) T →
        S ∈ stackOfD s T := by
      intro S hmem
      rw [stackOfD_exitRemove] at hmem
      exact List.mem_of_mem_eraseIdx hmem
    have hsts1 : (exitRemove s (stackOfD s T)
        ((stackOfD s T).length - pos - 1) ts T).self_time_started =
          s.self_time_started ∨
        ∃ q, q ∈ stackOfD s T ∧
          (exitRemove s (stackOfD s T)
            ((stackOfD s T).length - pos - 1) ts T).self_time_started =
            ainsert s.self_time_started (q, T) ts := by
      by_cases hk : 0 < (stackOfD s T).length - pos - 1
      · right
        refine ⟨((stackOfD s T).eraseIdx ((stackOfD s T).length - pos - 1)).getD
          ((stackOfD s T).length - pos - 1 - 1) 0, ?_, ?_⟩
        · exact exit_q_mem (stackOfD s T) pos _ hposlt hk rfl
        · exact exitRemove_sts_pos _ _ _ _ _ hk
      · left
        exact exitRemove_sts_zero _ _ _ _ _ hk
    cases hv : alookup (exitRemove s (stackOfD s T)
        ((stackOfD s T).length - pos - 1) ts T).self_time_started (i, T) with
    | none =>
      rw [exitStep_found s ts x T i pos hres hpos,
        newSelfTimes_exit_found_none s ts x T i pos hres hpos hv, List.append_nil]
      exact INV_exit_close_none T s _ log enters M ts i hInv hMts hstk1 hsts1 hv
    | some v =>
      rw [exitStep_found s ts x T i pos hres hpos,
        newSelfTimes_exit_found_some s ts x T i pos v hres hpos hv]
      exact INV_exit_close_some T s _ log enters M ts i v hInv hMts hstk1 hsts1 hv

theorem stackOfD_set_ne (s : PState) (th T : Nat) (l : List SpanId) (h : T ≠ th) :
    stackOfD ({ s with thread_stacks := ainsert s.thread_stacks th l } : PState) T =
      stackOfD s T := by
  show (alookup (ainsert s.thread_stacks th l) T).getD [] = _
  rw [alookup_ainsert_ne _ _ _ _ h]
  rfl

/-- A resolved Exit on another thread leaves thread `T`'s self-time
lookups unchanged. -/
theorem exitStep_sts_other (s : PState) (ts x th i T S : Nat)
    (hres : alookup s.active_ids x = some i) (hTne : T ≠ th) :
    alookup (exitStep s ts x th).self_time_started (S, T) =
      alookup s.self_time_started (S, T) := by
  have hkey : ∀ j : SpanId, ((S, T) : SpanId × Nat) ≠ (j, th) :=
    fun j hc => hTne (congrArg Prod.snd hc)
  cases hpos : (stackOfD s th).reverse.findIdx? (fun y => decide (y = i)) with
  | none =>
    rw [exitStep_notfound s ts x th i hres hpos]
    cases hv : alookup s.self_time_started (i, th) with
    | none =>
      rw [exitClose_none
        ({ s with thread_stacks := ainsert s.thread_stacks th (stackOfD s th) } : PState)
        i ts th hv]
    | some v =>
      rw [exitClose_some
        ({ s with thread_stacks := ainsert s.thread_stacks th (stackOfD s th) } : PState)
        i ts th v hv]
      have step : alookup (aerase s.self_time_started (i, th)) (S, T) =
          alookup s.self_time_started (S, T) := by
        rw [alookup_aerase, if_neg (hkey i)]
      exact step
  | some pos =>
    have hs1 : alookup (exitRemove s (stackOfD s th)
        ((stackOfD s th).length - pos - 1) ts th).self_time_started (S, T) =
        alookup s.self_time_started (S, T) := by
      by_cases hk : 0 < (stackOfD s th).length - pos - 1
      · rw [exitRemove_sts_pos _ _ _ _ _ hk, alookup_ainsert_ne _ _ _ _ (hkey _)]
      · rw [exitRemove_sts_zero _ _ _ _ _ hk]
    rw [exitStep_found s ts x th i pos hres hpos]
    cases hv : alookup (exitRemove s (stackOfD s th)
        ((stackOfD s th).length - pos - 1) ts th).self_time_started (i, th) with
    | none =>
      rw [exitClose_none _ i ts th hv]
      exact hs1
    | some v =>
      rw [exitClose_some _ i ts th v hv]
      have step : alookup (aerase (exitRemove s (stackOfD s th)
          ((stackOfD s th).length - pos - 1) ts th).self_time_started (i, th)) (S, T) =
          alookup (exitRemove s (stackOfD s th)
            ((stackOfD s th).length - pos - 1) ts th).self_time_started (S, T) := by
        rw [alookup_aerase, if_neg (hkey i)]
      exact step.trans hs1

/-- A resolved Exit on another thread leaves thread `T`'s stack
unchanged. -/
theorem exitStep_stacks_other (s : PState) (ts x th i T : Nat)
    (hres : alookup s.active_ids x = some i) (hTne : T ≠ th) :
    stackOfD (exitStep s ts x th) T = stackOfD s T := by
  cases hpos : (stackOfD s th).reverse.findIdx? (fun y => decide (y = i)) with
  | none =>
    rw [exitStep_notfound s ts x th i hres hpos]
    cases hv : alookup s.self_time_started (i, th) with
    | none =>
      rw [exitClose_none
        ({ s with thread_stacks := ainsert s.thread_stacks th (stackOfD s th) } : PState)
        i ts th hv]
      exact stackOfD_set_ne s th T (stackOfD s th) hTne
    | some v =>
      rw [exitClose_some
        ({ s with thread_stacks := ainsert s.thread_stacks th (stackOfD s th) } : PState)
        i ts th v hv]
      exact stackOfD_set_ne s th T (stackOfD s th) hTne
  | some pos =>
    have hs1 : stackOfD (exitRemove s (stackOfD s th)
        ((stackOfD s th).length - pos - 1) ts th) T = stackOfD s T := by
      show (alookup (exitRemove s (stackOfD s th)
        ((stackOfD s th).length - pos - 1) ts th).thread_stacks T).getD [] = _
      rw [exitRemove_stacks, alookup_ainsert_ne _ _ _ _ hTne]
      rfl
    rw [exitStep_found s ts x th i pos hres hpos]
    cases hv : alookup (exitRemove s (stackOfD s th)
        ((stackOfD s th).length - pos - 1) ts th).self_time_started (i, th) with
    | none =>
      rw [exitClose_none _ i ts th hv]
      exact hs1
    | some v =>
      rw [exitClose_some _ i ts th v hv]
      exact hs1

/-- The entries a resolved Exit on another thread logs all carry that
other thread. -/
theorem newSelfTimes_exit_other (s : PState) (ts x th i T S : Nat)
    (hres : alookup s.active_ids x = some i) (hTne : T ≠ th) :
    entriesFor S T (newSelfTimes s (TraceRow.exit ts x th)) = [] := by
  cases hpos : (stackOfD s th).reverse.findIdx? (fun y => decide (y = i)) with
  | none =>
    cases hv : alookup s.self_time_started (i, th) with
    | none => rw [newSelfTimes_exit_nf_none s ts x th i hres hpos hv, entriesFor_nil]
    | some v =>
      rw [newSelfTimes_exit_nf_some s ts x th i v hres hpos hv]
      exact entriesFor_single_miss S T _ (fun hc => hTne hc.2.symm)
  | some pos =>
    cases hv : alookup (exitRemove s (stackOfD s th)
        ((stackOfD s th).length - pos - 1) ts th).self_time_started (i, th) with
    | none => rw [newSelfTimes_exit_found_none s ts x th i pos hres hpos hv, entriesFor_nil]
    | some v =>
      rw [newSelfTimes_exit_found_some s ts x th i pos v hres hpos hv]
      exact entriesFor_single_miss S T _ (fun hc => hTne hc.2.symm)

/-- One `process` step preserves the invariant, raising the timestamp
bound to the step's thread-`T` timestamp when it has one. -/
theorem INV_step (T : Nat) (s : PState) (log : List STEntry)
    (enters : List ThreadEv) (M : Nat) (r : TraceRow)
    (hInv : INV T s log enters M)
    (hts : ∀ t, tsOn T r = some t → M ≤ t) :
    INV T (process s r) (log ++ newSelfTimes s r) (enters ++ newEnters s r)
      ((tsOn T r).getD M) := by
  cases r with
  | start ts id parent name target values =>
    intro S
    refine INVat_frame T S ?_ ?_ (Nat.le_refl M) ?_ ?_ (hInv S)
    · exact congrArg (fun m => alookup m (S, T)) (startStep_sts s ts id parent name target values)
    · intro hmem
      have hmem2 : S ∈ (alookup (startStep s ts id parent name target values).thread_stacks T).getD [] := hmem
      rw [startStep_stacks] at hmem2
      exact hmem2
    · rw [show newSelfTimes s (TraceRow.start ts id parent name target values) = [] from rfl,
        List.append_nil]
    · rw [show newEnters s (TraceRow.start ts id parent name target values) = [] from rfl,
        List.append_nil]
  | «end» ts id =>
    intro S
    have hsts : alookup (process s (TraceRow.«end» ts id)).self_time_started (S, T) =
        alookup s.self_time_started (S, T) := rfl
    have hstk : S ∈ stackOfD (process s (TraceRow.«end» ts id)) T →
        S ∈ stackOfD s T := fun h => h
    refine INVat_frame T S hsts hstk (Nat.le_refl M) ?_ ?_ (hInv S)
    · rw [show newSelfTimes s (TraceRow.«end» ts id) = [] from rfl, List.append_nil]
    · rw [show newEnters s (TraceRow.«end» ts id) = [] from rfl, List.append_nil]
  | event ts parent values =>
    intro S
    refine INVat_frame T S ?_ ?_ (Nat.le_refl M) ?_ ?_ (hInv S)
    · exact congrArg (fun m => alookup m (S, T)) (eventStep_sts s ts parent values)
    · intro hmem
      have hmem2 : S ∈ (alookup (eventStep s ts parent values).thread_stacks T).getD [] := hmem
      rw [eventStep_stacks] at hmem2
      exact hmem2
    · rw [show newSelfTimes s (TraceRow.event ts parent values) = [] from rfl, List.append_nil]
    · rw [show newEnters s (TraceRow.event ts parent values) = [] from rfl, List.append_nil]
  | enter ts x th =>
    cases hres : alookup s.active_ids x with
    | none =>
      intro S
      refine INVat_frame T S ?_ ?_ ?_ ?_ ?_ (hInv S)
      · show alookup (enterStep s ts x th).self_time_started (S, T) =
            alookup s.self_time_started (S, T)
        rw [enterStep_unres s ts x th hres]
        rfl
      · intro hmem
        have hmem2 : S ∈ stackOfD (enterStep s ts x th) T := hmem
        rw [enterStep_unres s ts x th hres] at hmem2
        exact hmem2
      · by_cases hth : th = T
        · have h1 : tsOn T (TraceRow.enter ts x th) = some ts := by
            rw [tsOn, if_pos hth]
          rw [h1]
          exact hts ts h1
        · have h1 : tsOn T (TraceRow.enter ts x th) = none := by
            rw [tsOn, if_neg hth]
          rw [h1]
          exact Nat.le_refl M
      · rw [newSelfTimes_enter_unres s ts x th hres, List.append_nil]
      · rw [newEnters_enter_unres s ts x th hres, List.append_nil]
    | some i =>
      by_cases hth : th = T
      · subst hth
        have h1 : tsOn th (TraceRow.enter ts x th) = some ts := by
          rw [tsOn, if_pos rfl]
        have hMts : M ≤ ts := hts ts h1
        rw [h1]
        exact INV_enter_T th s log enters M ts x i hres hInv hMts
      · intro S
        have hTne : T ≠ th := fun hc => hth hc.symm
        have h1 : tsOn T (TraceRow.enter ts x th) = none := by
          rw [tsOn, if_neg hth]
        cases hcl : enterClosed s th with
        | none =>
          refine INVat_frame T S ?_ ?_ ?_ ?_ ?_ (hInv S)
          · show alookup (enterStep s ts x th).self_time_started (S, T) =
                alookup s.self_time_started (S, T)
            rw [enterStep_res_none s ts x th i hres hcl]
            show alookup (ainsert s.self_time_started (i, th) ts) (S, T) =
                alookup s.self_time_started (S, T)
            exact alookup_ainsert_ne _ _ _ _ (fun hc => hTne (congrArg Prod.snd hc))
          · intro hmem
            have hmem2 : S ∈ stackOfD (enterStep s ts x th) T := hmem
            rw [enterStep_res_none s ts x th i hres hcl,
              stackOfD_enterFinish_ne _ _ _ _ _ _ hTne] at hmem2
            exact hmem2
          · rw [h1]
            exact Nat.le_refl M
          · rw [newSelfTimes_enter_none s ts x th i hres hcl, List.append_nil]
          · rw [newEnters_enter_res s ts x th i hres, evsFor_append,
              evsFor_single_miss S T _ (fun hc => hTne hc.2.symm), List.append_nil]
        | some pv =>
          obtain ⟨p, v⟩ := pv
          refine INVat_frame T S ?_ ?_ ?_ ?_ ?_ (hInv S)
          · show alookup (enterStep s ts x th).self_time_started (S, T) =
                alookup s.self_time_started (S, T)
            rw [enterStep_res_some s ts x th i p v hres hcl]
            show alookup (ainsert (aerase s.self_time_started (p, th)) (i, th) ts) (S, T) =
                alookup s.self_time_started (S, T)
            rw [alookup_ainsert_ne _ _ _ _ (fun hc => hTne (congrArg Prod.snd hc)),
              alookup_aerase, if_neg (fun hc => hTne (congrArg Prod.snd hc))]
          · intro hmem
            have hmem2 : S ∈ stackOfD (enterStep s ts x th) T := hmem
            rw [enterStep_res_some s ts x th i p v hres hcl,
              stackOfD_enterFinish_ne _ _ _ _ _ _ hTne] at hmem2
            exact hmem2
          · rw [h1]
            exact Nat.le_refl M
          · rw [newSelfTimes_enter_some s ts x th i p v hres hcl, entriesFor_append,
              entriesFor_single_miss S T _ (fun hc => hTne hc.2.symm), List.append_nil]
          · rw [newEnters_enter_res s ts x th i hres, evsFor_append,
              evsFor_single_miss S T _ (fun hc => hTne hc.2.symm), List.append_nil]
  | exit ts x th =>
    cases hres : alookup s.active_ids x with
    | none =>
      intro S
      refine INVat_frame T S ?_ ?_ ?_ ?_ ?_ (hInv S)
      · show alookup (exitStep s ts x th).self_time_started (S, T) =
            alookup s.self_time_started (S, T)
        rw [exitStep_unres s ts x th hres]
        rfl
      · intro hmem
        have hmem2 : S ∈ stackOfD (exitStep s ts x th) T := hmem
        rw [exitStep_unres s ts x th hres] at hmem2
        exact hmem2
      · by_cases hth : th = T
        · have h1 : tsOn T (TraceRow.exit ts x th) = some ts := by
            rw [tsOn, if_pos hth]
          rw [h1]
          exact hts ts h1
        · have h1 : tsOn T (TraceRow.exit ts x th) = none := by
            rw [tsOn, if_neg hth]
          rw [h1]
          exact Nat.le_refl M
      · rw [newSelfTimes_exit_unres s ts x th hres, List.append_nil]
      · rw [show newEnters s (TraceRow.exit ts x th) = [] from rfl, List.append_nil]
    | some i =>
      by_cases hth : th = T
      · subst hth
        have h1 : tsOn th (TraceRow.exit ts x th) = some ts := by
          rw [tsOn, if_pos rfl]
        have hMts : M ≤ ts := hts ts h1
        rw [h1]
        exact INV_exit_T th s log enters M ts x i hres hInv hMts
      · intro S
        have hTne : T ≠ th := fun hc => hth hc.symm
        have h1 : tsOn T (TraceRow.exit ts x th) = none := by
          rw [tsOn, if_neg hth]
        refine INVat_frame T S ?_ ?_ ?_ ?_ ?_ (hInv S)
        · show alookup (exitStep s ts x th).self_time_started (S, T) =
              alookup s.self_time_started (S, T)
          exact exitStep_sts_other s ts x th i T S hres hTne
        · intro hmem
          have hmem2 : S ∈ stackOfD (exitStep s ts x th) T := hmem
          rw [exitStep_stacks_other s ts x th i T hres hTne] at hmem2
          exact hmem2
        · rw [h1]
          exact Nat.le_refl M
        · rw [entriesFor_append, newSelfTimes_exit_other s ts x th i T S hres hTne,
            List.append_nil]
        · rw [show newEnters s (TraceRow.exit ts x th) = [] from rfl, List.append_nil]

/-- The invariant holds along any run whose thread-`T` timestamps are
monotone from the current bound, ending at the last such timestamp. -/
theorem INV_run (T : Nat) (rows : List TraceRow) :
    ∀ (t : Traced) (M : Nat), INV T t.st t.log t.enters M →
      monoFrom T M rows = true →
      INV T (trunFrom t rows).st (trunFrom t rows).log (trunFrom t rows).enters
        (lastTsFrom T M rows) := by
  induction rows with
  | nil =>
    intro t M hInv _
    exact hInv
  | cons r rest ih =>
    intro t M hInv hmono
    have h3 : monoFrom T M (r :: rest) =
        (match tsOn T r with
         | some t2 => decide (M ≤ t2) && monoFrom T t2 rest
         | none => monoFrom T M rest) := rfl
    have hIstep : INV T (tstep t r).st (tstep t r).log (tstep t r).enters
        ((tsOn T r).getD M) := by
      refine INV_step T t.st t.log t.enters M r hInv ?_
      intro u h
      have hmono2 : (decide (M ≤ u) && monoFrom T u rest) = true := by
        rw [h3, h] at hmono
        exact hmono
      rw [Bool.and_eq_true] at hmono2
      exact of_decide_eq_true hmono2.1
    have hmono3 : monoFrom T ((tsOn T r).getD M) rest = true := by
      cases htson : tsOn T r with
      | none =>
        rw [h3, htson] at hmono
        exact hmono
      | some u =>
        rw [h3, htson] at hmono
        have hmono2 : (decide (M ≤ u) && monoFrom T u rest) = true := hmono
        rw [Bool.and_eq_true] at hmono2
        exact hmono2.2
    exact ih (tstep t r) ((tsOn T r).getD M) hIstep hmono3

/-- The invariant holds at a fresh session. -/
theorem INV_init (T : Nat) : INV T initPState [] [] 0 := by
  intro S
  constructor
  · intro hne
    exact absurd (entriesFor_nil S T) hne
  · trivial
  · exact Nat.le_refl 0
  · intro v hv
    simp [initPState, alookup] at hv
  · intro hmem
    simp [stackOfD, initPState, alookup] at hmem

/-- C7, counterexample: in the stream `c7rows` - monotone on its only
thread - span 0 first Enters at 10 and last Exits at 20, yet its closed
self-time on thread 1 sums to 20 ns (intervals [10,20] and [30,40], the
second closed after a re-Enter): the claimed bound last-Exit minus
first-Enter (10 ns) fails. -/
theorem c7_counterexample :
    monoFrom 1 0 c7rows = true ∧
    sumLen (entriesFor 0 1 (trun c7rows).log) = 20 ∧
    firstEnterTs 0 1 (trun c7rows).enters = 10 ∧
    lastExitTs 0 1 (trun c7rows).exits = 20 ∧
    ¬ (sumLen (entriesFor 0 1 (trun c7rows).log) ≤
        lastExitTs 0 1 (trun c7rows).exits - firstEnterTs 0 1 (trun c7rows).enters) := by
  exact ⟨by decide, by decide, by decide, by decide, by decide⟩

/-- C7, amended: for every span S, every thread T and every record stream
whose Enter/Exit timestamps on T are monotone, the total length of the
closed self-time intervals recorded for S on T is at most the duration
between S's first resolved Enter on T and the last Enter/Exit timestamp
processed on T (intervals may extend past S's last Exit when S is
re-entered or stays on the stack, so the last Exit is not an upper
endpoint). -/
theorem c7_amended (rows : List TraceRow) (S T : Nat)
    (h : monoFrom T 0 rows = true) :
    sumLen (entriesFor S T (trun rows).log) ≤
      lastTsFrom T 0 rows - firstEnterTs S T (trun rows).enters := by
  have hrun := INV_run T rows ⟨initPState, [], [], []⟩ 0 (INV_init T) h
  rw [trun]
  have hS := hrun S
  have hsum := chainLB_sum _ _ hS.chain
  have hle := hS.hi_le
  omega

/-- C7, amended, witness: a simple enter/exit pair on thread 1 satisfies
the amended bound (interval [3,9], sum 6 ≤ 9 - 3). -/
theorem c7_amended_witness :
    sumLen (entriesFor 0 1 (trun c7wrows).log) ≤
      lastTsFrom 1 0 c7wrows - firstEnterTs 0 1 (trun c7wrows).enters :=
  c7_amended c7wrows 0 1 (by decide)

theorem setSelfTime_get_ne (spans : List Span) (p a b j : Nat) (h : j ≠ p) :
    (setSelfTime spans p a b)[j]? = spans[j]? := by
  induction spans generalizing p j with
  | nil => rfl
  | cons sp rest ih =>
    cases p with
    | zero =>
      cases j with
      | zero => exact absurd rfl h
      | succ m => simp [setSelfTime]
    | succ n =>
      cases j with
      | zero => simp [setSelfTime]
      | succ m =>
        simp only [setSelfTime, List.getElem?_cons_succ]
        exact ih n m (fun hc => h (by rw [hc]))

theorem setSelfTime_get_self (spans : List Span) (p a b : Nat)
    (h : p < spans.length) :
    ((setSelfTime spans p a b)[p]?).map Span.selfTimes =
      some ((((spans[p]?).map Span.selfTimes).getD []) ++ [(a, b)]) := by
  induction spans generalizing p with
  | nil => simp at h
  | cons sp rest ih =>
    cases p with
    | zero => simp [setSelfTime]
    | succ n =>
      simp only [setSelfTime, List.getElem?_cons_succ]
      exact ih n (by simpa using h)


theorem filterSpan_single (j p th v ts : Nat) :
    ([(⟨p, th, v, ts⟩ : STEntry)]).filterMap
      (fun e => if e.span = j then some (e.start, e.stop) else none) =
      if p = j then [(v, ts)] else [] := by
  by_cases hpj : p = j <;> simp [List.filterMap_cons, List.filterMap_nil, hpj]
/-- The ghost log is faithful: one `process` step extends the stored
self-time intervals of each existing span exactly by that step's
`newSelfTimes` entries for it (with the thread tag dropped). -/
theorem storeIntervals_process (s : PState) (r : TraceRow) (j : Nat)
    (hj : j < s.store.spans.length) :
    storeIntervals (process s r) j =
      storeIntervals s j ++ (newSelfTimes s r).filterMap
        (fun e => if e.span = j then some (e.start, e.stop) else none) := by
  unfold storeIntervals
  cases r with
  | start ts id parent name target values =>
    rw [show newSelfTimes s (TraceRow.start ts id parent name target values) = [] from rfl,
      List.filterMap_nil, List.append_nil]
    cases parent with
    | none =>
      show (((s.store.spans ++
        [⟨none, ts, target, name, values, []⟩])[j]?).map Span.selfTimes).getD [] = _
      simp [List.getElem?_append, hj]
    | some p =>
      show (((match alookup s.active_ids p with
        | some ip => applyStart s ts id (some ip) name target values
        | none => queuePush s p
            (TraceRow.start ts id (some p) name target values)).store.spans[j]?).map
          Span.selfTimes).getD [] = _
      cases hres : alookup s.active_ids p with
      | none => rfl
      | some ip =>
        show (((s.store.spans ++
          [⟨some ip, ts, target, name, values, []⟩])[j]?).map Span.selfTimes).getD [] = _
        simp [List.getElem?_append, hj]
  | «end» ts id =>
    rw [show newSelfTimes s (TraceRow.«end» ts id) = [] from rfl,
      List.filterMap_nil, List.append_nil]
    rfl
  | event ts parent values =>
    rw [show newSelfTimes s (TraceRow.event ts parent values) = [] from rfl,
      List.filterMap_nil, List.append_nil]
    cases parent with
    | none => rfl
    | some p =>
      show (((match alookup s.active_ids p with
        | some _ => s
        | none => queuePush s p
            (TraceRow.event ts (some p) values)).store.spans[j]?).map
          Span.selfTimes).getD [] = _
      cases hres : alookup s.active_ids p with
      | none => rfl
      | some ip => rfl
  | enter ts x th =>
    cases hres : alookup s.active_ids x with
    | none =>
      rw [newSelfTimes_enter_unres s ts x th hres, List.filterMap_nil, List.append_nil]
      have h1 : process s (TraceRow.enter ts x th) =
          queuePush s x (TraceRow.enter ts x th) := enterStep_unres s ts x th hres
      rw [h1]
      rfl
    | some i =>
      cases hcl : enterClosed s th with
      | none =>
        rw [newSelfTimes_enter_none s ts x th i hres hcl, List.filterMap_nil,
          List.append_nil]
        have h1 : process s (TraceRow.enter ts x th) =
            enterFinish s (stackOfD s th) i ts th := enterStep_res_none s ts x th i hres hcl
        rw [h1]
        rfl
      | some pv =>
        obtain ⟨p, v⟩ := pv
        rw [newSelfTimes_enter_some s ts x th i p v hres hcl, filterSpan_single]
        have h1 : process s (TraceRow.enter ts x th) =
            enterFinish (closeSelf s p v ts th) (stackOfD s th) i ts th :=
          enterStep_res_some s ts x th i p v hres hcl
        rw [h1]
        show (((setSelfTime s.store.spans p v ts)[j]?).map Span.selfTimes).getD [] = _
        by_cases hpj : p = j
        · subst hpj
          rw [setSelfTime_get_self s.store.spans p v ts (by omega), if_pos rfl]
          rfl
        · rw [setSelfTime_get_ne s.store.spans p v ts j (fun hc => hpj hc.symm),
            if_neg hpj, List.append_nil]
  | exit ts x th =>
    cases hres : alookup s.active_ids x with
    | none =>
      rw [newSelfTimes_exit_unres s ts x th hres, List.filterMap_nil, List.append_nil]
      have h1 : process s (TraceRow.exit ts x th) =
          queuePush s x (TraceRow.exit ts x th) := exitStep_unres s ts x th hres
      rw [h1]
      rfl
    | some i =>
      cases hpos : (stackOfD s th).reverse.findIdx? (fun y => decide (y = i)) with
      | none =>
        have h1 : process s (TraceRow.exit ts x th) =
            exitClose
              ({ s with thread_stacks := ainsert s.thread_stacks th (stackOfD s th) } : PState)
              i ts th := exitStep_notfound s ts x th i hres hpos
        cases hv : alookup s.self_time_started (i, th) with
        | none =>
          rw [newSelfTimes_exit_nf_none s ts x th i hres hpos hv, List.filterMap_nil,
            List.append_nil, h1,
            exitClose_none
              ({ s with thread_stacks := ainsert s.thread_stacks th (stackOfD s th) } : PState)
              i ts th hv]
        | some v =>
          rw [newSelfTimes_exit_nf_some s ts x th i v hres hpos hv, filterSpan_single, h1,
            exitClose_some
              ({ s with thread_stacks := ainsert s.thread_stacks th (stackOfD s th) } : PState)
              i ts th v hv]
          show (((setSelfTime s.store.spans i v ts)[j]?).map Span.selfTimes).getD [] = _
          by_cases hij : i = j
          · subst hij
            rw [setSelfTime_get_self s.store.spans i v ts (by omega), if_pos rfl]
            rfl
          · rw [setSelfTime_get_ne s.store.spans i v ts j (fun hc => hij hc.symm),
              if_neg hij, List.append_nil]
      | some pos =>
        have h1 : process s (TraceRow.exit ts x th) =
            exitClose (exitRemove s (stackOfD s th)
              ((stackOfD s th).length - pos - 1) ts th) i ts th :=
          exitStep_found s ts x th i pos hres hpos
        cases hv : alookup (exitRemove s (stackOfD s th)
            ((stackOfD s th).length - pos - 1) ts th).self_time_started (i, th) with
        | none =>
          rw [newSelfTimes_exit_found_none s ts x th i pos hres hpos hv, List.filterMap_nil,
            List.append_nil, h1, exitClose_none _ i ts th hv]
          show (((exitRemove s (stackOfD s th)
            ((stackOfD s th).length - pos - 1) ts th).store.spans[j]?).map
              Span.selfTimes).getD [] = _
          rw [exitRemove_store]
        | some v =>
          rw [newSelfTimes_exit_found_some s ts x th i pos v hres hpos hv, filterSpan_single,
            h1, exitClose_some _ i ts th v hv]
          show (((setSelfTime (exitRemove s (stackOfD s th)
            ((stackOfD s th).length - pos - 1) ts th).store.spans i v ts)[j]?).map
              Span.selfTimes).getD [] = _
          rw [exitRemove_store]
          by_cases hij : i = j
          · subst hij
            rw [setSelfTime_get_self s.store.spans i v ts (by omega), if_pos rfl]
            rfl
          · rw [setSelfTime_get_ne s.store.spans i v ts j (fun hc => hij hc.symm),
              if_neg hij, List.append_nil]
